import Mathlib

/-! Verification development for the kbwapi card-catalog backend.

The definitions below are a shallow embedding of the `/search-cards` handler
of `src/index.ts` (lines 388-612).  The relational store is modelled as lists
of rows (one list per table), SQL queries as list filters/joins that return
rows in table order, and the handler as a pure function from the store and the
raw query parameters to either an error response or the list of merged output
records, paired with the number of storage queries it issues.
-/

/-- Row of the `cartas` base table
(columns `id, id_global, id_fisico, nombre, descripcion, tipo_carta`).
Nullable columns are `Option`. -/
structure Carta where
  id : Int
  id_global : Option String
  id_fisico : Option String
  nombre : String
  descripcion : String
  tipo_carta : String
deriving DecidableEq, Repr

/-- Row of the `bestias` subtype table.  The SQL column `def` is spelled
`defn` because `def` is reserved in Lean; `tiene_habilidad_esp` is the
0/1 integer stored by the importer. -/
structure Bestia where
  id : Int
  atk : Int
  defn : Int
  lvl : Int
  reino : Option String
  tiene_habilidad_esp : Int
deriving DecidableEq, Repr

/-- Row of the `reinas` subtype table. -/
structure Reina where
  id : Int
  atk : Int
  lvl : Int
  reino : Option String
deriving DecidableEq, Repr

/-- Row of the `tokens` subtype table (SQL `def` spelled `defn`). -/
structure Token where
  id : Int
  atk : Int
  defn : Int
  lvl : Int
  reino : Option String
deriving DecidableEq, Repr

/-- Row of the `conjuros` subtype table. -/
structure Conjuro where
  id : Int
  tipo : String
deriving DecidableEq, Repr

/-- Row of the `recursos` subtype table (marker row). -/
structure Recurso where
  id : Int
deriving DecidableEq, Repr

/-- The relational store: one list of rows per table, in table order. -/
structure DB where
  cartas : List Carta
  bestias : List Bestia
  reinas : List Reina
  tokens : List Token
  conjuros : List Conjuro
  recursos : List Recurso
deriving DecidableEq, Repr

/-- The raw query parameters of `/search-cards`
(`idFisico`, `nombre`, `tipo`, `reino`, `nivel`); `none` means the query
string does not carry the parameter at all. -/
structure Params where
  idFisico : Option String
  nombre : Option String
  tipo : Option String
  reino : Option String
  nivel : Option String
deriving DecidableEq, Repr

/-- JavaScript truthiness of an optional string parameter:
`undefined` and the empty string are falsy, everything else truthy. -/
def given : Option String → Bool
  | none => false
  | some s => !(s == "")

/-- The attribute fields the handler copies onto an output record from a
subtype row (`obj.atk = extra.atk; if ("def" in extra) ...`).  `defn` and
`tieneHabilidadEsp` are `Option` because the reinas row has no `def` column
and only bestias rows have `tiene_habilidad_esp`. -/
structure MergedExtra where
  atk : Int
  defn : Option Int
  lvl : Int
  reino : Option String
  tieneHabilidadEsp : Option Bool
deriving DecidableEq, Repr

/-- A merged output record of the search
(`{idFisico, idGlobal, nombre, descripcion, tipoCarta, ...attrs}`);
`extra = none` models the absence of all attribute fields. -/
structure OutObj where
  idFisico : Option String
  idGlobal : Option String
  nombre : String
  descripcion : String
  tipoCarta : String
  extra : Option MergedExtra
deriving DecidableEq, Repr

/-- Attribute fields taken from a `bestias` row
(`SELECT atk, def, lvl, reino, tiene_habilidad_esp`); the handler converts
`tiene_habilidad_esp === 1` to a boolean. -/
def bestiaExtra (b : Bestia) : MergedExtra :=
  ⟨b.atk, some b.defn, b.lvl, b.reino, some (b.tiene_habilidad_esp == 1)⟩

/-- Attribute fields taken from a `reinas` row (`SELECT atk, lvl, reino`). -/
def reinaExtra (r : Reina) : MergedExtra :=
  ⟨r.atk, none, r.lvl, r.reino, none⟩

/-- Attribute fields taken from a `tokens` row (`SELECT atk, def, lvl, reino`). -/
def tokenExtra (t : Token) : MergedExtra :=
  ⟨t.atk, some t.defn, t.lvl, t.reino, none⟩

/-- Build one output record from a base row and the optional attributes. -/
def mkObj (c : Carta) (e : Option MergedExtra) : OutObj :=
  ⟨c.id_fisico, c.id_global, c.nombre, c.descripcion, c.tipo_carta, e⟩

/-- Error body and HTTP status of an error response (`c.json({error}, st)`). -/
structure ErrResp where
  status : Nat
  error : String
deriving DecidableEq, Repr

/-- Outcome of the handler: error response or list of merged records. -/
abbrev SearchResult := Except ErrResp (List OutObj)

/-- Decidable equality of handler outcomes (used to evaluate the handler on
concrete stores inside proofs). -/
instance {ε α : Type} [DecidableEq ε] [DecidableEq α] : DecidableEq (Except ε α) :=
  fun x y =>
    match x, y with
    | .ok a, .ok b =>
      if h : a = b then isTrue (by rw [h])
      else isFalse (by intro hh; cases hh; exact h rfl)
    | .error a, .error b =>
      if h : a = b then isTrue (by rw [h])
      else isFalse (by intro hh; cases hh; exact h rfl)
    | .ok _, .error _ => isFalse (by intro hh; cases hh)
    | .error _, .ok _ => isFalse (by intro hh; cases hh)

/- ---------------------------------------------------------------------
String utilities.  They mirror the JavaScript / SQLite operations the
handler uses, restricted to their ASCII behaviour (all catalog tokens and
the SQLite LOWER used by the queries are ASCII). -/

/-- ASCII lower-casing of one character (as SQLite LOWER does). -/
def charLower (c : Char) : Char :=
  if 'A' ≤ c ∧ c ≤ 'Z' then Char.ofNat (c.toNat + 32) else c

/-- ASCII upper-casing of one character (JS `toUpperCase` on ASCII input). -/
def charUpper (c : Char) : Char :=
  if 'a' ≤ c ∧ c ≤ 'z' then Char.ofNat (c.toNat - 32) else c

/-- ASCII lower-casing of a string. -/
def lowerStr (s : String) : String := ⟨s.data.map charLower⟩

/-- ASCII upper-casing of a string. -/
def upperStr (s : String) : String := ⟨s.data.map charUpper⟩

/-- JS `String.prototype.split(",")`: split on every comma, keeping empty
pieces (so `"".split(",") = [""]`). -/
def splitOnCommaAux : List Char → List Char → List String
  | [], acc => [⟨acc.reverse⟩]
  | c :: rest, acc =>
    if c = ',' then ⟨acc.reverse⟩ :: splitOnCommaAux rest []
    else splitOnCommaAux rest (c :: acc)

/-- Split a string on commas, JS-style. -/
def splitOnComma (s : String) : List String := splitOnCommaAux s.data []

/-- JS `String.prototype.trim()`: drop whitespace on both ends. -/
def trimChars (s : String) : String :=
  ⟨((s.data.dropWhile Char.isWhitespace).reverse.dropWhile Char.isWhitespace).reverse⟩

/-- JS `replace(/\s+/g, "_")`: each maximal run of whitespace becomes one
underscore.  `inRun` records whether the previous character was whitespace. -/
def collapseWSAux : Bool → List Char → List Char
  | _, [] => []
  | inRun, c :: rest =>
    if c.isWhitespace then
      (if inRun then [] else ['_']) ++ collapseWSAux true rest
    else c :: collapseWSAux false rest

/-- Replace every whitespace run of a string by a single underscore. -/
def collapseWS (s : String) : String := ⟨collapseWSAux false s.data⟩

/-- JS `Array.from(new Set(l))`: deduplicate keeping the first occurrence,
in order.  `seen` accumulates the values already emitted. -/
def dedupFirstAux {α : Type} [BEq α] : List α → List α → List α
  | _, [] => []
  | seen, a :: rest =>
    if seen.contains a then dedupFirstAux seen rest
    else a :: dedupFirstAux (a :: seen) rest

/-- Deduplicate a list keeping first occurrences. -/
def dedupFirst {α : Type} [BEq α] (l : List α) : List α := dedupFirstAux [] l

/-- JS `parseInt(s, 10)`: skip leading whitespace, read an optional sign and
then the maximal run of decimal digits; no digits means NaN (`none`). -/
def parseIntJS (s : String) : Option Int :=
  let cs := s.data.dropWhile Char.isWhitespace
  let signAndRest : Int × List Char :=
    match cs with
    | '-' :: rest => (-1, rest)
    | '+' :: rest => (1, rest)
    | _ => (1, cs)
  let digits := signAndRest.2.takeWhile Char.isDigit
  if digits.isEmpty then none
  else some (signAndRest.1 *
    (Int.ofNat (digits.foldl (fun acc c => acc * 10 + (c.toNat - 48)) 0)))

/- ---------------------------------------------------------------------
SQL LIKE.  The handler issues `LOWER(c.nombre) LIKE ?` with the bound
pattern `"%" + rawNombre.toLowerCase() + "%"`, so `%` and `_` inside the
user's `nombre` act as SQL wildcards.  `likeMatchAux` is the standard LIKE
matcher (`%` = any sequence, `_` = exactly one character); the fuel is only
a termination device and `pat.length + txt.length + 1` always suffices. -/

def likeMatchAux : Nat → List Char → List Char → Bool
  | 0, _, _ => false
  | _ + 1, [], t => t.isEmpty
  | fuel + 1, p :: ps, t =>
    if p = '%' then
      likeMatchAux fuel ps t ||
        (match t with
         | [] => false
         | _ :: ts => likeMatchAux fuel (p :: ps) ts)
    else
      match t with
      | [] => false
      | c :: ts => (p == '_' || p == c) && likeMatchAux fuel ps ts

/-- SQL LIKE pattern matching over character lists. -/
def likeMatch (pat txt : List Char) : Bool :=
  likeMatchAux (pat.length + txt.length + 1) pat txt

/-- The bound pattern `"%" + raw.toLowerCase() + "%"` as a character list. -/
def likePattern (raw : String) : List Char :=
  '%' :: ((lowerStr raw).data ++ ['%'])

/-- The query predicate `LOWER(nombre) LIKE '%' || LOWER(raw) || '%'`. -/
def nameLike (raw nombre : String) : Bool :=
  likeMatch (likePattern raw) (lowerStr nombre).data

/- ---------------------------------------------------------------------
Filter normalization (step 2 of the handler). -/

/-- Normalized type list: split on commas, trim, drop empty tokens,
uppercase and collapse internal whitespace to `_`, deduplicate.  A missing
or empty (falsy) raw parameter yields the empty list. -/
def normTipos (raw : Option String) : List String :=
  if given raw then
    dedupFirst ((((splitOnComma (raw.getD "")).map trimChars).filter
      (fun s => !(s == ""))).map (fun s => collapseWS (upperStr s)))
  else []

/-- Normalized realm list: split, trim, drop empty tokens, uppercase,
deduplicate. -/
def normReinos (raw : Option String) : List String :=
  if given raw then
    dedupFirst ((((splitOnComma (raw.getD "")).map trimChars).filter
      (fun s => !(s == ""))).map upperStr)
  else []

/-- Normalized level list: split, `parseInt` each token, drop NaN,
deduplicate. -/
def normNiveles (raw : Option String) : List Int :=
  if given raw then
    dedupFirst ((splitOnComma (raw.getD "")).filterMap parseIntJS)
  else []

/-- The valid realm enumeration checked by the handler. -/
def validReinos : List String := ["NATURA", "NICROM", "PYRO", "AQUA"]

/-- The `tipoMap` of the handler: which table a type token resolves to;
`none` is an invalid type token. -/
def tipoMap (t : String) : Option String :=
  if t == "BESTIA_NORMAL" then some "bestias"
  else if t == "BESTIA_HABILIDAD" then some "bestias"
  else if t == "REINA" then some "reinas"
  else if t == "TOKEN" then some "tokens"
  else if t == "CONJURO_NORMAL" then some "cartas"
  else if t == "CONJURO_CAMPO" then some "cartas"
  else if t == "RECURSO" then some "cartas"
  else none

/-- The attribute-bearing types (`tiposConReino` in the handler). -/
def tiposConReino : List String :=
  ["BESTIA_NORMAL", "BESTIA_HABILIDAD", "REINA", "TOKEN"]

/-- The handler's `tipos.filter(t => tiposConReino.includes(t))`. -/
def tiposANDof (p : Params) : List String :=
  (normTipos p.tipo).filter (fun t => tiposConReino.contains t)

/-- The handler's `tipos.filter(t => !tiposConReino.includes(t))`. -/
def tiposRestantesOf (p : Params) : List String :=
  (normTipos p.tipo).filter (fun t => !(tiposConReino.contains t))

/- ---------------------------------------------------------------------
Query predicates.  The handler appends each SQL predicate only when the
corresponding filter list is non-empty; `xs.isEmpty || pred` states exactly
that.  A NULL `reino` column never satisfies `reino IN (...)`. -/

/-- Predicate `s.reino IN (reinos)` guarded by `reinos.length`. -/
def reinoPred (reinos : List String) (r : Option String) : Bool :=
  reinos.isEmpty ||
    (match r with
     | some rr => reinos.contains rr
     | none => false)

/-- Predicate `s.lvl IN (niveles)` guarded by `niveles.length`. -/
def nivelPred (niveles : List Int) (lvl : Int) : Bool :=
  niveles.isEmpty || niveles.contains lvl

/-- Predicate `LOWER(c.nombre) LIKE %nombre%` guarded by the truthiness of `nombre`. -/
def nombrePred (nombre : Option String) (n : String) : Bool :=
  !(given nombre) || nameLike (nombre.getD "") n

/-- Predicate `c.tipo_carta = t` when a type equality filter is present. -/
def tipoPred (tipoEq : Option String) (t : String) : Bool :=
  match tipoEq with
  | some tt => t == tt
  | none => true

/-- The join `SELECT c.*, s.* FROM cartas c JOIN sub s ON c.id = s.id WHERE ...`:
for each base row (in table order) every matching subtype row produces one
result row.  Only the base columns are kept because the handler never reads
the joined subtype columns (enrichment re-fetches them). -/
def joinQuery {α : Type} (cartas : List Carta) (sub : List α) (gid : α → Int)
    (greino : α → Option String) (glvl : α → Int)
    (tipoEq : Option String) (reinos : List String) (niveles : List Int)
    (nombre : Option String) : List Carta :=
  cartas.flatMap (fun c =>
    (sub.filter (fun s =>
      gid s == c.id && tipoPred tipoEq c.tipo_carta
        && reinoPred reinos (greino s) && nivelPred niveles (glvl s)
        && nombrePred nombre c.nombre)).map (fun _ => c))

/-- The joined query of step 7 for one attribute-bearing type, dispatched to
its table via `tipoMap` (both beast types share the `bestias` table). -/
def joinForTipo (db : DB) (t : String) (reinos : List String)
    (niveles : List Int) (nombre : Option String) : List Carta :=
  if t == "REINA" then
    joinQuery db.cartas db.reinas Reina.id Reina.reino Reina.lvl (some t)
      reinos niveles nombre
  else if t == "TOKEN" then
    joinQuery db.cartas db.tokens Token.id Token.reino Token.lvl (some t)
      reinos niveles nombre
  else
    joinQuery db.cartas db.bestias Bestia.id Bestia.reino Bestia.lvl (some t)
      reinos niveles nombre

/-- Step 7: one joined query per requested attribute-bearing type, results
concatenated in request order. -/
def cartasAndRows (db : DB) (p : Params) : List Carta :=
  (tiposANDof p).flatMap (fun t =>
    joinForTipo db t (normReinos p.reino) (normNiveles p.nivel) p.nombre)

/-- Step 8: `SELECT * FROM cartas WHERE tipo_carta IN (tiposRestantes)
[AND LOWER(nombre) LIKE ?]`, issued only when `tiposRestantes` is
non-empty. -/
def cartasRestRows (db : DB) (p : Params) : List Carta :=
  if (tiposRestantesOf p).isEmpty then []
  else
    db.cartas.filter (fun c =>
      (tiposRestantesOf p).contains c.tipo_carta && nombrePred p.nombre c.nombre)

/-- Condition of step 9: no filter dimension at all. -/
def noFilterCond (p : Params) : Bool :=
  (normTipos p.tipo).isEmpty && (normReinos p.reino).isEmpty
    && !(given p.nombre) && (normNiveles p.nivel).isEmpty

/-- Step 9: `SELECT * FROM cartas` when no filter was given. -/
def cartasAllRows (db : DB) (p : Params) : List Carta :=
  if noFilterCond p then db.cartas else []

/-- Condition of step 10: no attribute-bearing type requested and at least
one of realm / level / name given. -/
def subScanCond (p : Params) : Bool :=
  (tiposANDof p).isEmpty &&
    (!(normReinos p.reino).isEmpty || !(normNiveles p.nivel).isEmpty
      || given p.nombre)

/-- Step 10: the implicit scan over the three attribute-bearing subtype
tables (bestias, reinas, tokens in that order), without a type predicate. -/
def subCartasRows (db : DB) (p : Params) : List Carta :=
  if subScanCond p then
    joinQuery db.cartas db.bestias Bestia.id Bestia.reino Bestia.lvl none
        (normReinos p.reino) (normNiveles p.nivel) p.nombre
      ++ joinQuery db.cartas db.reinas Reina.id Reina.reino Reina.lvl none
        (normReinos p.reino) (normNiveles p.nivel) p.nombre
      ++ joinQuery db.cartas db.tokens Token.id Token.reino Token.lvl none
        (normReinos p.reino) (normNiveles p.nivel) p.nombre
  else []

/-- Step 11 input: all rows gathered by steps 7-10, in push order. -/
def searchUnionRows (db : DB) (p : Params) : List Carta :=
  cartasAndRows db p ++ cartasRestRows db p ++ cartasAllRows db p
    ++ subCartasRows db p

/-- Step 11: the seen-set filter `todas.filter(c => !seen.has(c.id))`,
keeping the first row of each base id. -/
def dedupByIdAux : List Int → List Carta → List Carta
  | _, [] => []
  | seen, c :: rest =>
    if seen.contains c.id then dedupByIdAux seen rest
    else c :: dedupByIdAux (c.id :: seen) rest

/-- Deduplicate rows by base id, first occurrence wins. -/
def dedupById (l : List Carta) : List Carta := dedupByIdAux [] l

/-- The deduplicated row list the merger works on. -/
def searchDedupRows (db : DB) (p : Params) : List Carta :=
  dedupById (searchUnionRows db p)

/- ---------------------------------------------------------------------
Step 12: `fetchSubtable` — chunked `WHERE id IN (...)` reads merged into an
id-keyed map (`combined[row.id] = row`, later writes win). -/

/-- Split a list into chunks of `n` (the handler uses `CHUNK_SIZE = 15`).
The fuel argument is only a termination device; `l.length` suffices. -/
def chunksOfAux {α : Type} (n : Nat) : Nat → List α → List (List α)
  | 0, _ => []
  | _ + 1, [] => []
  | fuel + 1, a :: rest =>
    (a :: rest.take (n - 1)) :: chunksOfAux n fuel (rest.drop (n - 1))

/-- Split a list into chunks of `n`. -/
def chunksOf {α : Type} (n : Nat) (l : List α) : List (List α) :=
  chunksOfAux n l.length l

/-- Assignment `combined[row.id] = row` on an id-keyed map. -/
def updMap {α : Type} (gid : α → Int) (m : Int → Option α) (r : α) :
    Int → Option α :=
  fun i => if i == gid r then some r else m i

/-- One chunk of `fetchSubtable`: query the rows whose id is in the chunk
(in table order) and write each into the map. -/
def chunkStep {α : Type} (rows : List α) (gid : α → Int)
    (m : Int → Option α) (chunk : List Int) : Int → Option α :=
  (rows.filter (fun r => chunk.contains (gid r))).foldl (updMap gid) m

/-- The handler's `fetchSubtable(table, columns, ids)`: empty ids issue no query;
otherwise one query per 15-id chunk, all written into one map.  The second
component is the number of queries issued. -/
def fetchSubtable {α : Type} (rows : List α) (gid : α → Int)
    (ids : List Int) : (Int → Option α) × Nat :=
  if ids.isEmpty then (fun _ => none, 0)
  else ((chunksOf 15 ids).foldl (chunkStep rows gid) (fun _ => none),
        (chunksOf 15 ids).length)

/-- The bestias map of step 12, fetched only when a beast type occurs among
the result rows. -/
def bMapOf (db : DB) (todas : List Carta) : (Int → Option Bestia) × Nat :=
  if (todas.map (·.tipo_carta)).contains "BESTIA_NORMAL"
      || (todas.map (·.tipo_carta)).contains "BESTIA_HABILIDAD" then
    fetchSubtable db.bestias Bestia.id (todas.map (·.id))
  else (fun _ => none, 0)

/-- The reinas map of step 12. -/
def rMapOf (db : DB) (todas : List Carta) : (Int → Option Reina) × Nat :=
  if (todas.map (·.tipo_carta)).contains "REINA" then
    fetchSubtable db.reinas Reina.id (todas.map (·.id))
  else (fun _ => none, 0)

/-- The tokens map of step 12. -/
def tMapOf (db : DB) (todas : List Carta) : (Int → Option Token) × Nat :=
  if (todas.map (·.tipo_carta)).contains "TOKEN" then
    fetchSubtable db.tokens Token.id (todas.map (·.id))
  else (fun _ => none, 0)

/-- The three enrichment maps of step 12. -/
def enrichMaps (db : DB) (todas : List Carta) :
    (Int → Option Bestia) × (Int → Option Reina) × (Int → Option Token) :=
  ((bMapOf db todas).1, (rMapOf db todas).1, (tMapOf db todas).1)

/-- Number of storage queries issued by step 12. -/
def enrichCount (db : DB) (todas : List Carta) : Nat :=
  (bMapOf db todas).2 + (rMapOf db todas).2 + (tMapOf db todas).2

/-- Step 13: `bestiasMap[id] || reinasMap[id] || tokensMap[id]` merged onto
the base record. -/
def mergeRow
    (M : (Int → Option Bestia) × (Int → Option Reina) × (Int → Option Token))
    (c : Carta) : OutObj :=
  mkObj c (((M.1 c.id).map bestiaExtra).or
    (((M.2.1 c.id).map reinaExtra).or ((M.2.2 c.id).map tokenExtra)))

/- ---------------------------------------------------------------------
Step 5: the idFisico short-circuit. -/

/-- Resolve the subtype row of one base record by its `tipo_carta`
(`SELECT ... FROM <table> WHERE id = ?`, first row or null) together with
the number of queries this issues. -/
def idFisicoExtra (db : DB) (c : Carta) : Option MergedExtra × Nat :=
  if c.tipo_carta == "BESTIA_NORMAL" || c.tipo_carta == "BESTIA_HABILIDAD" then
    (((db.bestias.filter (fun b => b.id == c.id)).head?).map bestiaExtra, 1)
  else if c.tipo_carta == "REINA" then
    (((db.reinas.filter (fun r => r.id == c.id)).head?).map reinaExtra, 1)
  else if c.tipo_carta == "TOKEN" then
    (((db.tokens.filter (fun t => t.id == c.id)).head?).map tokenExtra, 1)
  else (none, 0)

/-- Lookup `SELECT * FROM cartas WHERE id_fisico = ?`, then merge the first hit
with its subtype row; empty result when nothing matches. -/
def idFisicoObjs (db : DB) (raw : String) : List OutObj :=
  match db.cartas.filter (fun c => c.id_fisico == some raw) with
  | [] => []
  | c :: _ => [mkObj c (idFisicoExtra db c).1]

/-- Number of storage queries of the idFisico branch. -/
def idFisicoCount (db : DB) (raw : String) : Nat :=
  match db.cartas.filter (fun c => c.id_fisico == some raw) with
  | [] => 1
  | c :: _ => 1 + (idFisicoExtra db c).2

/-- Queries issued by steps 7-10 (one per requested attribute type, one for
the plain types when any, one for the unfiltered scan, three for the
subtype scan). -/
def branchQueryCount (p : Params) : Nat :=
  (tiposANDof p).length
    + (if (tiposRestantesOf p).isEmpty then 0 else 1)
    + (if noFilterCond p then 1 else 0)
    + (if subScanCond p then 3 else 0)

/-- The `/search-cards` handler: validation, the idFisico short-circuit,
the four row-gathering branches, dedup and enrichment; paired with the
total number of storage queries issued. -/
def searchCardsLog (db : DB) (p : Params) : SearchResult × Nat :=
  match (normReinos p.reino).find? (fun r => !(validReinos.contains r)) with
  | some r =>
    (Except.error ⟨400, "Reino inválido: " ++ r ++ ". Válidos: "
      ++ String.intercalate ", " validReinos⟩, 0)
  | none =>
    match (normTipos p.tipo).find? (fun t => (tipoMap t).isNone) with
    | some t => (Except.error ⟨400, "Tipo inválido: " ++ t⟩, 0)
    | none =>
      if given p.idFisico then
        (Except.ok (idFisicoObjs db (p.idFisico.getD "")),
         idFisicoCount db (p.idFisico.getD ""))
      else
        let todas := searchDedupRows db p
        if todas.isEmpty then (Except.ok [], branchQueryCount p)
        else
          (Except.ok (todas.map (mergeRow (enrichMaps db todas))),
           branchQueryCount p + enrichCount db todas)

/-- The response of `/search-cards`. -/
def searchCards (db : DB) (p : Params) : SearchResult :=
  (searchCardsLog db p).1

/-- How many storage queries `/search-cards` issues for a request. -/
def searchQueryCount (db : DB) (p : Params) : Nat :=
  (searchCardsLog db p).2

/- ---------------------------------------------------------------------
Store invariants used as hypotheses (the data-model invariants of the
importer: primary keys are unique, a subtype row exists only under a base
row of the matching card type). -/

/-- Primary keys are unique in every table touched by the search. -/
abbrev WFdb (db : DB) : Prop :=
  (db.cartas.map (·.id)).Nodup ∧ (db.bestias.map (·.id)).Nodup
    ∧ (db.reinas.map (·.id)).Nodup ∧ (db.tokens.map (·.id)).Nodup

/-- A subtype row only exists for a base card of the matching type. -/
abbrev TypedDB (db : DB) : Prop :=
  (∀ c ∈ db.cartas, ∀ b ∈ db.bestias, b.id = c.id →
    c.tipo_carta = "BESTIA_NORMAL" ∨ c.tipo_carta = "BESTIA_HABILIDAD")
    ∧ (∀ c ∈ db.cartas, ∀ r ∈ db.reinas, r.id = c.id → c.tipo_carta = "REINA")
    ∧ (∀ c ∈ db.cartas, ∀ t ∈ db.tokens, t.id = c.id → c.tipo_carta = "TOKEN")

/-- Every realm token and every type token of the request is valid. -/
abbrev validationOk (p : Params) : Prop :=
  (∀ r ∈ normReinos p.reino, validReinos.contains r = true)
    ∧ (∀ t ∈ normTipos p.tipo, (tipoMap t).isSome = true)

/-- A string without SQL LIKE wildcards. -/
abbrev noWild (s : List Char) : Prop := '%' ∉ s ∧ '_' ∉ s

/- ---------------------------------------------------------------------
Concrete stores, requests and expected records used to instantiate the
theorems below. -/

/-- A small concrete catalog with one card of each card type. -/
def dbW : DB :=
  { cartas := [⟨1, some "g1", some "f1", "Drake", "d1", "BESTIA_NORMAL"⟩,
               ⟨2, some "g2", some "f2", "Queen", "d2", "REINA"⟩,
               ⟨3, some "g3", some "f3", "Tok", "d3", "TOKEN"⟩,
               ⟨4, some "g4", some "f4", "Spell", "d4", "CONJURO_NORMAL"⟩,
               ⟨5, some "g5", some "f5", "Res", "d5", "RECURSO"⟩],
    bestias := [⟨1, 1200, 800, 4, some "PYRO", 0⟩],
    reinas := [⟨2, 1000, 5, some "AQUA"⟩],
    tokens := [⟨3, 100, 100, 1, some "NATURA"⟩],
    conjuros := [⟨4, "RITUAL"⟩],
    recursos := [⟨5⟩] }

/-- The enriched output record of the Drake card of `dbW`. -/
def oDrake : OutObj :=
  ⟨some "f1", some "g1", "Drake", "d1", "BESTIA_NORMAL",
    some ⟨1200, some 800, 4, some "PYRO", some false⟩⟩

/-- The enriched output record of the Queen card of `dbW`. -/
def oQueen : OutObj :=
  ⟨some "f2", some "g2", "Queen", "d2", "REINA",
    some ⟨1000, none, 5, some "AQUA", none⟩⟩

/-- The enriched output record of the Tok card of `dbW`. -/
def oTok : OutObj :=
  ⟨some "f3", some "g3", "Tok", "d3", "TOKEN",
    some ⟨100, some 100, 1, some "NATURA", none⟩⟩

/-- The output record of the Spell card of `dbW` (no attribute fields). -/
def oSpell : OutObj :=
  ⟨some "f4", some "g4", "Spell", "d4", "CONJURO_NORMAL", none⟩

/-- The output record of the Res card of `dbW` (no attribute fields). -/
def oRes : OutObj :=
  ⟨some "f5", some "g5", "Res", "d5", "RECURSO", none⟩

/-- A request with no parameter at all. -/
def pEmpty : Params := ⟨none, none, none, none, none⟩

/-- Request `tipo=BESTIA_NORMAL&nombre=d_ake`: the name contains a LIKE wildcard. -/
def pWild : Params := ⟨none, some "d_ake", some "BESTIA_NORMAL", none, none⟩

/-- Request `tipo=BESTIA_NORMAL&reino=PYRO&nivel=4`. -/
def pBeastPyro4 : Params := ⟨none, none, some "BESTIA_NORMAL", some "PYRO", some "4"⟩

/-- Request `tipo=RECURSO&reino=PYRO`: a plain type together with a realm filter. -/
def pResPyro : Params := ⟨none, none, some "RECURSO", some "PYRO", none⟩

/-- Request `tipo=RECURSO,CONJURO_NORMAL`: plain types only, no other filter. -/
def pPlain : Params := ⟨none, none, some "RECURSO,CONJURO_NORMAL", none, none⟩

/-- Request `idFisico=f1` alone. -/
def pIdF : Params := ⟨some "f1", none, none, none, none⟩

/-- Request `idFisico=f1&reino=FOO`: a physical-id lookup plus an invalid realm. -/
def pIdFBadReino : Params := ⟨some "f1", none, none, some "FOO", none⟩

/-- Request `idFisico=f1` plus a full set of valid extra filters. -/
def pIdFExtra : Params := ⟨some "f1", some "x", some "REINA", some "PYRO", some "9"⟩

/-- Request `tipo=XYZ&reino=FOO`: both an invalid type and an invalid realm token. -/
def pBadBoth : Params := ⟨none, none, some "XYZ", some "FOO", none⟩

/-- Request `nivel=999`: an out-of-range level value. -/
def pLevel999 : Params := ⟨none, none, none, none, some "999"⟩

/-- Request `tipo=CONJURO_NORMAL` alone. -/
def pSpell : Params := ⟨none, none, some "CONJURO_NORMAL", none, none⟩

/-- Request `tipo=REINA,TOKEN`. -/
def pQT : Params := ⟨none, none, some "REINA,TOKEN", none, none⟩

/-- Request `tipo=TOKEN,REINA`: same token set as `pQT`, reordered. -/
def pTQ : Params := ⟨none, none, some "TOKEN,REINA", none, none⟩

/-- A noisy spelling of `tipo=REINA&reino=PYRO,AQUA`. -/
def pNoisyA : Params := ⟨none, none, some " reina ,REINA", some "PYRO,AQUA", none⟩

/-- Another spelling of the same canonical sets (realms reordered). -/
def pNoisyB : Params := ⟨none, none, some "Reina", some "AQUA,pyro", none⟩

/- ---------------------------------------------------------------------
Generic helper lemmas. -/

/-- Membership characterizes `List.contains` (lawful `BEq`). -/
theorem contains_true_iff {α : Type} [BEq α] [LawfulBEq α] (l : List α) (a : α) :
    l.contains a = true ↔ a ∈ l := List.elem_iff

/- Deduplication (step 11). -/

/-- A row surviving the seen-set filter was in the input and its id was not
yet seen. -/
theorem dedupByIdAux_mem {l : List Carta} {seen : List Int} {c : Carta}
    (h : c ∈ dedupByIdAux seen l) : c ∈ l ∧ c.id ∉ seen := by
  induction l generalizing seen with
  | nil => simp [dedupByIdAux] at h
  | cons x rest ih =>
    simp only [dedupByIdAux] at h
    by_cases hx : seen.contains x.id = true
    · rw [if_pos hx] at h
      have hrec := ih h
      exact ⟨List.mem_cons_of_mem _ hrec.1, hrec.2⟩
    · rw [if_neg hx] at h
      rcases List.mem_cons.mp h with hc | hc
      · subst hc
        refine ⟨List.mem_cons_self _ _, ?_⟩
        intro hmem
        exact hx ((contains_true_iff seen c.id).mpr hmem)
      · have hrec := ih hc
        refine ⟨List.mem_cons_of_mem _ hrec.1, ?_⟩
        intro hmem
        exact hrec.2 (List.mem_cons_of_mem _ hmem)

/-- The ids of the deduplicated rows are pairwise distinct. -/
theorem dedupByIdAux_nodup (l : List Carta) (seen : List Int) :
    ((dedupByIdAux seen l).map (·.id)).Nodup := by
  induction l generalizing seen with
  | nil => simp [dedupByIdAux]
  | cons x rest ih =>
    simp only [dedupByIdAux]
    by_cases hx : seen.contains x.id = true
    · rw [if_pos hx]; exact ih seen
    · rw [if_neg hx]
      simp only [List.map_cons, List.nodup_cons]
      refine ⟨?_, ih (x.id :: seen)⟩
      intro hmem
      rcases List.mem_map.mp hmem with ⟨c, hc, hcid⟩
      exact (dedupByIdAux_mem hc).2 (by rw [hcid]; exact List.mem_cons_self _ _)

/-- Each surviving row is the first row of the input carrying its id. -/
theorem dedupByIdAux_find {l : List Carta} {seen : List Int} {c : Carta}
    (h : c ∈ dedupByIdAux seen l) :
    l.find? (fun x => x.id == c.id) = some c := by
  induction l generalizing seen with
  | nil => simp [dedupByIdAux] at h
  | cons x rest ih =>
    simp only [dedupByIdAux] at h
    by_cases hx : seen.contains x.id = true
    · rw [if_pos hx] at h
      have hne : (x.id == c.id) = false := by
        apply beq_eq_false_iff_ne.mpr
        intro he
        exact (dedupByIdAux_mem h).2 (he ▸ (contains_true_iff _ _).mp hx)
      rw [List.find?_cons_of_neg _ (by simp [hne]), ih h]
    · rw [if_neg hx] at h
      rcases List.mem_cons.mp h with hc | hc
      · subst hc
        exact List.find?_cons_of_pos _ (by simp)
      · have hne : (x.id == c.id) = false := by
          apply beq_eq_false_iff_ne.mpr
          intro he
          exact (dedupByIdAux_mem hc).2 (by rw [← he]; exact List.mem_cons_self _ _)
        rw [List.find?_cons_of_neg _ (by simp [hne]), ih hc]

/-- On a list whose ids are already distinct the seen-set filter is the
identity. -/
theorem dedupByIdAux_eq_self {l : List Carta} {seen : List Int}
    (hn : (l.map (·.id)).Nodup) (hd : ∀ c ∈ l, c.id ∉ seen) :
    dedupByIdAux seen l = l := by
  induction l generalizing seen with
  | nil => rfl
  | cons x rest ih =>
    simp only [List.map_cons, List.nodup_cons] at hn
    simp only [dedupByIdAux]
    have hx : ¬ seen.contains x.id = true := by
      intro hc
      exact hd x (List.mem_cons_self _ _) ((contains_true_iff _ _).mp hc)
    rw [if_neg hx]
    congr 1
    apply ih hn.2
    intro c hc
    simp only [List.mem_cons]
    rintro (he | hs)
    · exact hn.1 (by rw [← he]; exact List.mem_map_of_mem _ hc)
    · exact hd c (List.mem_cons_of_mem _ hc) hs

/-- Deduplication returns a list of rows with pairwise distinct ids. -/
theorem dedupById_nodup (l : List Carta) :
    ((dedupById l).map (·.id)).Nodup := dedupByIdAux_nodup l []

/-- Deduplication keeps only rows of the input. -/
theorem dedupById_subset {l : List Carta} {c : Carta} (h : c ∈ dedupById l) :
    c ∈ l := (dedupByIdAux_mem h).1

/-- Deduplication keeps the first occurrence of each id. -/
theorem dedupById_find {l : List Carta} {c : Carta} (h : c ∈ dedupById l) :
    l.find? (fun x => x.id == c.id) = some c := dedupByIdAux_find h

/-- Deduplication is the identity on lists with distinct ids. -/
theorem dedupById_eq_self {l : List Carta} (hn : (l.map (·.id)).Nodup) :
    dedupById l = l := dedupByIdAux_eq_self hn (by simp)

/- Chunked id fetches (step 12). -/

/-- Every element of a list lands in one of its chunks. -/
theorem chunksOfAux_mem_chunk {α : Type} (n : Nat) :
    ∀ (fuel : Nat) (l : List α) (i : α), l.length ≤ fuel → i ∈ l →
      ∃ ch ∈ chunksOfAux n fuel l, i ∈ ch := by
  intro fuel
  induction fuel with
  | zero =>
    intro l i hl hi
    cases l with
    | nil => simp at hi
    | cons a rest => simp at hl
  | succ fuel ih =>
    intro l i hl hi
    cases l with
    | nil => simp at hi
    | cons a rest =>
      simp only [chunksOfAux]
      rcases List.mem_cons.mp hi with rfl | hr
      · exact ⟨i :: rest.take (n - 1), List.mem_cons_self _ _,
          List.mem_cons_self _ _⟩
      · have hsplit : i ∈ rest.take (n - 1) ++ rest.drop (n - 1) := by
          rw [List.take_append_drop]; exact hr
        rcases List.mem_append.mp hsplit with ht | hd
        · exact ⟨a :: rest.take (n - 1), List.mem_cons_self _ _,
            List.mem_cons_of_mem _ ht⟩
        · have hlen : (rest.drop (n - 1)).length ≤ fuel := by
            simp only [List.length_cons] at hl
            have hdl := List.length_drop (n - 1) rest
            omega
          rcases ih (rest.drop (n - 1)) i hlen hd with ⟨ch, hch, hich⟩
          exact ⟨ch, List.mem_cons_of_mem _ hch, hich⟩

/-- A value found in the id-keyed map came from the row list. -/
theorem foldl_updMap_some {α : Type} (gid : α → Int) {i : Int} {x : α} :
    ∀ (L : List α) (m : Int → Option α),
      (L.foldl (updMap gid) m) i = some x → (x ∈ L ∧ gid x = i) ∨ m i = some x := by
  intro L
  induction L with
  | nil => intro m h; exact Or.inr h
  | cons r L ih =>
    intro m h
    rw [List.foldl_cons] at h
    rcases ih _ h with ⟨hx, hg⟩ | hm
    · exact Or.inl ⟨List.mem_cons_of_mem _ hx, hg⟩
    · unfold updMap at hm
      by_cases hb : (i == gid r) = true
      · rw [if_pos hb] at hm
        have hrx : r = x := by injection hm
        subst hrx
        exact Or.inl ⟨List.mem_cons_self _ _, (eq_of_beq hb).symm⟩
      · rw [if_neg hb] at hm
        exact Or.inr hm

/-- Rows whose id differs leave the map unchanged at that id. -/
theorem foldl_updMap_of_notmem {α : Type} (gid : α → Int) {i : Int} :
    ∀ (L : List α) (m : Int → Option α), (∀ r ∈ L, gid r ≠ i) →
      (L.foldl (updMap gid) m) i = m i := by
  intro L
  induction L with
  | nil => intro m _; rfl
  | cons r L ih =>
    intro m hno
    rw [List.foldl_cons,
      ih _ (fun r' hr' => hno r' (List.mem_cons_of_mem _ hr'))]
    have hb : ¬ (i == gid r) = true := by
      intro hb
      exact hno r (List.mem_cons_self _ _) (eq_of_beq hb).symm
    simp [updMap, hb]

/-- If `s` is the unique row with id `i`, writing the rows yields `s` at `i`
whenever `s` occurs in the list or was already stored. -/
theorem foldl_updMap_mem {α : Type} (gid : α → Int) {i : Int} {s : α}
    (hgid : gid s = i) :
    ∀ (L : List α) (m : Int → Option α),
      (∀ r ∈ L, gid r = i → r = s) → (s ∈ L ∨ m i = some s) →
      (L.foldl (updMap gid) m) i = some s := by
  intro L
  induction L with
  | nil =>
    intro m _ h
    rcases h with h | h
    · simp at h
    · exact h
  | cons r L ih =>
    intro m huniq hyp
    rw [List.foldl_cons]
    have huniq' : ∀ r' ∈ L, gid r' = i → r' = s :=
      fun r' hr' hg => huniq r' (List.mem_cons_of_mem _ hr') hg
    rcases hyp with hs | hm
    · rcases List.mem_cons.mp hs with rfl | hsL
      · apply ih _ huniq'
        right
        simp [updMap, beq_iff_eq.mpr hgid.symm]
      · exact ih _ huniq' (Or.inl hsL)
    · apply ih _ huniq'
      right
      by_cases hri : gid r = i
      · have hrs : r = s := huniq r (List.mem_cons_self _ _) hri
        subst hrs
        simp [updMap, beq_iff_eq.mpr hri.symm]
      · have hb : (i == gid r) = false :=
          beq_eq_false_iff_ne.mpr (fun he => hri he.symm)
        simp [updMap, hb, hm]

/-- Soundness of one chunk write. -/
theorem chunkStep_some {α : Type} (rows : List α) (gid : α → Int) {i : Int}
    {x : α} (m : Int → Option α) (chunk : List Int)
    (h : chunkStep rows gid m chunk i = some x) :
    (x ∈ rows ∧ gid x = i) ∨ m i = some x := by
  unfold chunkStep at h
  rcases foldl_updMap_some gid _ m h with ⟨hx, hg⟩ | hm
  · exact Or.inl ⟨(List.mem_filter.mp hx).1, hg⟩
  · exact Or.inr hm

/-- Soundness of the whole chunk fold. -/
theorem foldl_chunkStep_some {α : Type} (rows : List α) (gid : α → Int)
    {i : Int} {x : α} :
    ∀ (chunks : List (List Int)) (m : Int → Option α),
      (chunks.foldl (chunkStep rows gid) m) i = some x →
      (x ∈ rows ∧ gid x = i) ∨ m i = some x := by
  intro chunks
  induction chunks with
  | nil => intro m h; exact Or.inr h
  | cons ch chunks ih =>
    intro m h
    rw [List.foldl_cons] at h
    rcases ih _ h with hrow | hm
    · exact Or.inl hrow
    · exact chunkStep_some rows gid m ch hm

/-- Completeness of the chunk fold for the unique row with a given id. -/
theorem foldl_chunkStep_mem {α : Type} (rows : List α) (gid : α → Int)
    {i : Int} {s : α} (hgid : gid s = i) (hs : s ∈ rows)
    (huniq : ∀ r ∈ rows, gid r = i → r = s) :
    ∀ (chunks : List (List Int)) (m : Int → Option α),
      ((∃ ch ∈ chunks, i ∈ ch) ∨ m i = some s) →
      (chunks.foldl (chunkStep rows gid) m) i = some s := by
  intro chunks
  induction chunks with
  | nil =>
    intro m h
    rcases h with ⟨ch, hch, _⟩ | h
    · simp at hch
    · exact h
  | cons ch chunks ih =>
    intro m h
    rw [List.foldl_cons]
    by_cases hich : i ∈ ch
    · apply ih
      right
      unfold chunkStep
      apply foldl_updMap_mem gid hgid
      · intro r hr hg
        exact huniq r (List.mem_filter.mp hr).1 hg
      · left
        apply List.mem_filter.mpr
        refine ⟨hs, ?_⟩
        rw [hgid]
        exact (contains_true_iff _ _).mpr hich
    · rcases h with ⟨ch', hch', hich'⟩ | hm
      · rcases List.mem_cons.mp hch' with rfl | htail
        · exact absurd hich' hich
        · exact ih _ (Or.inl ⟨ch', htail, hich'⟩)
      · apply ih
        right
        unfold chunkStep
        rw [foldl_updMap_of_notmem]
        · exact hm
        · intro r hr hg
          have hcont := (List.mem_filter.mp hr).2
          rw [hg] at hcont
          exact hich ((contains_true_iff _ _).mp hcont)

/-- A hit in `fetchSubtable` is a row of the table with the looked-up id. -/
theorem fetchSubtable_some {α : Type} {rows : List α} {gid : α → Int}
    {ids : List Int} {i : Int} {x : α}
    (h : (fetchSubtable rows gid ids).1 i = some x) : x ∈ rows ∧ gid x = i := by
  unfold fetchSubtable at h
  by_cases he : ids.isEmpty = true
  · rw [if_pos he] at h
    simp at h
  · rw [if_neg he] at h
    rcases foldl_chunkStep_some rows gid _ _ h with hrow | hm
    · exact hrow
    · simp at hm

/-- With unique table ids, the unique row of a fetched id is found. -/
theorem fetchSubtable_eq_some {α : Type} {rows : List α} {gid : α → Int}
    {ids : List Int} {i : Int} {s : α}
    (hn : (rows.map gid).Nodup) (hs : s ∈ rows) (hgid : gid s = i)
    (hi : i ∈ ids) : (fetchSubtable rows gid ids).1 i = some s := by
  have hne : ¬ ids.isEmpty = true := by
    rcases ids with _ | ⟨a, l⟩
    · simp at hi
    · simp
  unfold fetchSubtable
  rw [if_neg hne]
  apply foldl_chunkStep_mem rows gid hgid hs
  · intro r hr hg
    exact List.inj_on_of_nodup_map hn hr hs (by rw [hg, hgid])
  · left
    exact chunksOfAux_mem_chunk 15 ids.length ids i le_rfl hi

/-- With unique table ids, a filter on one id is the singleton of the unique
matching row. -/
theorem filter_gid_singleton {α : Type} {rows : List α} {gid : α → Int}
    {i : Int} {b : α} (hn : (rows.map gid).Nodup) (hb : b ∈ rows)
    (hgid : gid b = i) : rows.filter (fun x => gid x == i) = [b] := by
  induction rows with
  | nil => simp at hb
  | cons r rest ih =>
    simp only [List.map_cons, List.nodup_cons] at hn
    rcases List.mem_cons.mp hb with rfl | hbr
    · rw [List.filter_cons, if_pos (by simp [beq_iff_eq.mpr hgid])]
      have hrest : rest.filter (fun x => gid x == i) = [] := by
        apply List.filter_eq_nil_iff.mpr
        intro a ha hba
        have h1 : gid a = i := by simpa using hba
        have h2 : gid a = gid b := by rw [h1, hgid]
        exact hn.1 (h2 ▸ List.mem_map_of_mem _ ha)
      rw [hrest]
    · rw [List.filter_cons]
      have hne : ¬ (gid r == i) = true := by
        intro hbeq
        have : gid r = gid b := by rw [eq_of_beq hbeq, hgid]
        exact hn.1 (this ▸ List.mem_map_of_mem _ hbr)
      rw [if_neg (by simpa using hne)]
      exact ih hn.2 hbr

/-- A filter on one id with no matching row is empty. -/
theorem filter_gid_nil {α : Type} {rows : List α} {gid : α → Int} {i : Int}
    (hno : ∀ r ∈ rows, gid r ≠ i) :
    rows.filter (fun x => gid x == i) = [] := by
  apply List.filter_eq_nil_iff.mpr
  intro a ha hba
  exact hno a ha (by simpa using hba)

/- Query predicate decomposition. -/

/-- A non-empty realm filter that holds forces a realm value in the list. -/
theorem reinoPred_nonempty {reinos : List String} {r : Option String}
    (hne : reinos ≠ []) (h : reinoPred reinos r = true) :
    ∃ rr, r = some rr ∧ rr ∈ reinos := by
  unfold reinoPred at h
  have he : reinos.isEmpty = false := by
    rcases reinos with _ | ⟨a, l⟩
    · exact absurd rfl hne
    · rfl
  rw [he] at h
  simp only [Bool.false_or] at h
  cases r with
  | none => simp at h
  | some rr => exact ⟨rr, rfl, (contains_true_iff _ _).mp h⟩

/-- A non-empty level filter that holds forces the level into the list. -/
theorem nivelPred_nonempty {niveles : List Int} {lvl : Int}
    (hne : niveles ≠ []) (h : nivelPred niveles lvl = true) : lvl ∈ niveles := by
  unfold nivelPred at h
  have he : niveles.isEmpty = false := by
    rcases niveles with _ | ⟨a, l⟩
    · exact absurd rfl hne
    · rfl
  rw [he] at h
  simp only [Bool.false_or] at h
  exact (contains_true_iff _ _).mp h

/-- A given name filter that holds forces the LIKE match. -/
theorem nombrePred_given {nombre : Option String} {n : String}
    (hg : given nombre = true) (h : nombrePred nombre n = true) :
    nameLike (nombre.getD "") n = true := by
  unfold nombrePred at h
  rw [hg] at h
  simpa using h

/- Join queries (step 7 and step 10). -/

/-- Inversion of a joined query: the base row is in the base table, some
subtype row shares its id, and all active predicates hold. -/
theorem mem_joinQuery {α : Type} {cartas : List Carta} {sub : List α}
    {gid : α → Int} {greino : α → Option String} {glvl : α → Int}
    {tipoEq : Option String} {reinos : List String} {niveles : List Int}
    {nombre : Option String} {c : Carta}
    (h : c ∈ joinQuery cartas sub gid greino glvl tipoEq reinos niveles nombre) :
    c ∈ cartas ∧ ∃ s ∈ sub, gid s = c.id
      ∧ tipoPred tipoEq c.tipo_carta = true
      ∧ reinoPred reinos (greino s) = true
      ∧ nivelPred niveles (glvl s) = true
      ∧ nombrePred nombre c.nombre = true := by
  unfold joinQuery at h
  rcases List.mem_flatMap.mp h with ⟨c', hc', hmem⟩
  rcases List.mem_map.mp hmem with ⟨s, hs, rfl⟩
  have hsf := List.mem_filter.mp hs
  refine ⟨hc', s, hsf.1, ?_⟩
  have hpred := hsf.2
  simp only [Bool.and_eq_true] at hpred
  obtain ⟨⟨⟨⟨hgid, htp⟩, hr⟩, hl⟩, hn⟩ := hpred
  exact ⟨eq_of_beq hgid, htp, hr, hl, hn⟩

/-- A type-constrained joined query only returns rows of that type. -/
theorem joinQuery_tipo {α : Type} {cartas : List Carta} {sub : List α}
    {gid : α → Int} {greino : α → Option String} {glvl : α → Int}
    {t : String} {reinos : List String} {niveles : List Int}
    {nombre : Option String} {c : Carta}
    (h : c ∈ joinQuery cartas sub gid greino glvl (some t) reinos niveles nombre) :
    c.tipo_carta = t := by
  have := (mem_joinQuery h).2
  rcases this with ⟨s, _, _, htp, _⟩
  unfold tipoPred at htp
  exact eq_of_beq htp

/- Enrichment maps (step 12). -/

/-- A bestias-map hit is a bestias row with the looked-up id. -/
theorem bMapOf_some {db : DB} {todas : List Carta} {i : Int} {b : Bestia}
    (h : (bMapOf db todas).1 i = some b) : b ∈ db.bestias ∧ b.id = i := by
  unfold bMapOf at h
  by_cases hc : ((todas.map (·.tipo_carta)).contains "BESTIA_NORMAL"
      || (todas.map (·.tipo_carta)).contains "BESTIA_HABILIDAD") = true
  · rw [if_pos hc] at h
    exact fetchSubtable_some h
  · rw [if_neg hc] at h
    simp at h

/-- A reinas-map hit is a reinas row with the looked-up id. -/
theorem rMapOf_some {db : DB} {todas : List Carta} {i : Int} {r : Reina}
    (h : (rMapOf db todas).1 i = some r) : r ∈ db.reinas ∧ r.id = i := by
  unfold rMapOf at h
  by_cases hc : ((todas.map (·.tipo_carta)).contains "REINA") = true
  · rw [if_pos hc] at h
    exact fetchSubtable_some h
  · rw [if_neg hc] at h
    simp at h

/-- A tokens-map hit is a tokens row with the looked-up id. -/
theorem tMapOf_some {db : DB} {todas : List Carta} {i : Int} {t : Token}
    (h : (tMapOf db todas).1 i = some t) : t ∈ db.tokens ∧ t.id = i := by
  unfold tMapOf at h
  by_cases hc : ((todas.map (·.tipo_carta)).contains "TOKEN") = true
  · rw [if_pos hc] at h
    exact fetchSubtable_some h
  · rw [if_neg hc] at h
    simp at h

/-- For a beast-typed result row the bestias map finds its unique bestias
row. -/
theorem bMapOf_eq_some {db : DB} {todas : List Carta} {c : Carta} {b : Bestia}
    (hn : (db.bestias.map (·.id)).Nodup) (hb : b ∈ db.bestias)
    (hbid : b.id = c.id) (hctodas : c ∈ todas)
    (hct : c.tipo_carta = "BESTIA_NORMAL" ∨ c.tipo_carta = "BESTIA_HABILIDAD") :
    (bMapOf db todas).1 c.id = some b := by
  unfold bMapOf
  have hgate : ((todas.map (·.tipo_carta)).contains "BESTIA_NORMAL"
      || (todas.map (·.tipo_carta)).contains "BESTIA_HABILIDAD") = true := by
    rw [Bool.or_eq_true]
    rcases hct with hct | hct
    · exact Or.inl
        ((contains_true_iff _ _).mpr (hct ▸ List.mem_map_of_mem _ hctodas))
    · exact Or.inr
        ((contains_true_iff _ _).mpr (hct ▸ List.mem_map_of_mem _ hctodas))
  rw [if_pos hgate]
  exact fetchSubtable_eq_some hn hb hbid (List.mem_map_of_mem _ hctodas)

/-- For a queen-typed result row the reinas map finds its unique reinas
row. -/
theorem rMapOf_eq_some {db : DB} {todas : List Carta} {c : Carta} {r : Reina}
    (hn : (db.reinas.map (·.id)).Nodup) (hr : r ∈ db.reinas)
    (hrid : r.id = c.id) (hctodas : c ∈ todas)
    (hct : c.tipo_carta = "REINA") :
    (rMapOf db todas).1 c.id = some r := by
  unfold rMapOf
  have hgate : ((todas.map (·.tipo_carta)).contains "REINA") = true :=
    (contains_true_iff _ _).mpr (hct ▸ List.mem_map_of_mem _ hctodas)
  rw [if_pos hgate]
  exact fetchSubtable_eq_some hn hr hrid (List.mem_map_of_mem _ hctodas)

/-- For a token-typed result row the tokens map finds its unique tokens
row. -/
theorem tMapOf_eq_some {db : DB} {todas : List Carta} {c : Carta} {t : Token}
    (hn : (db.tokens.map (·.id)).Nodup) (ht : t ∈ db.tokens)
    (htid : t.id = c.id) (hctodas : c ∈ todas)
    (hct : c.tipo_carta = "TOKEN") :
    (tMapOf db todas).1 c.id = some t := by
  unfold tMapOf
  have hgate : ((todas.map (·.tipo_carta)).contains "TOKEN") = true :=
    (contains_true_iff _ _).mpr (hct ▸ List.mem_map_of_mem _ hctodas)
  rw [if_pos hgate]
  exact fetchSubtable_eq_some hn ht htid (List.mem_map_of_mem _ hctodas)

/-- The bestias map is empty at ids with no bestias row. -/
theorem bMapOf_none {db : DB} {todas : List Carta} {i : Int}
    (hno : ∀ b ∈ db.bestias, b.id ≠ i) : (bMapOf db todas).1 i = none := by
  cases h : (bMapOf db todas).1 i with
  | none => rfl
  | some b => exact absurd (bMapOf_some h).2 (hno b (bMapOf_some h).1)

/-- The reinas map is empty at ids with no reinas row. -/
theorem rMapOf_none {db : DB} {todas : List Carta} {i : Int}
    (hno : ∀ r ∈ db.reinas, r.id ≠ i) : (rMapOf db todas).1 i = none := by
  cases h : (rMapOf db todas).1 i with
  | none => rfl
  | some r => exact absurd (rMapOf_some h).2 (hno r (rMapOf_some h).1)

/-- The tokens map is empty at ids with no tokens row. -/
theorem tMapOf_none {db : DB} {todas : List Carta} {i : Int}
    (hno : ∀ t ∈ db.tokens, t.id ≠ i) : (tMapOf db todas).1 i = none := by
  cases h : (tMapOf db todas).1 i with
  | none => rfl
  | some t => exact absurd (tMapOf_some h).2 (hno t (tMapOf_some h).1)

/- Branch membership. -/

/-- Rows of a per-type joined query are base rows of exactly that type. -/
theorem mem_joinForTipo {db : DB} {t : String} {reinos : List String}
    {niveles : List Int} {nombre : Option String} {c : Carta}
    (h : c ∈ joinForTipo db t reinos niveles nombre) :
    c ∈ db.cartas ∧ c.tipo_carta = t := by
  unfold joinForTipo at h
  by_cases h1 : (t == "REINA") = true
  · rw [if_pos h1] at h
    exact ⟨(mem_joinQuery h).1, joinQuery_tipo h⟩
  · rw [if_neg h1] at h
    by_cases h2 : (t == "TOKEN") = true
    · rw [if_pos h2] at h
      exact ⟨(mem_joinQuery h).1, joinQuery_tipo h⟩
    · rw [if_neg h2] at h
      exact ⟨(mem_joinQuery h).1, joinQuery_tipo h⟩

/-- Rows of the plain-type branch are base rows whose type is among the
requested plain types. -/
theorem mem_cartasRestRows {db : DB} {p : Params} {c : Carta}
    (h : c ∈ cartasRestRows db p) :
    c ∈ db.cartas ∧ c.tipo_carta ∈ tiposRestantesOf p
      ∧ nombrePred p.nombre c.nombre = true := by
  unfold cartasRestRows at h
  by_cases he : (tiposRestantesOf p).isEmpty = true
  · rw [if_pos he] at h
    simp at h
  · rw [if_neg he] at h
    have hf := List.mem_filter.mp h
    have hp := hf.2
    simp only [Bool.and_eq_true] at hp
    exact ⟨hf.1, (contains_true_iff _ _).mp hp.1, hp.2⟩

/-- Rows of the subtype scan are base rows with a matching subtype row in
one of the three attribute tables. -/
theorem mem_subCartasRows {db : DB} {p : Params} {c : Carta}
    (h : c ∈ subCartasRows db p) : c ∈ db.cartas := by
  unfold subCartasRows at h
  by_cases hc : subScanCond p = true
  · rw [if_pos hc] at h
    rcases List.mem_append.mp h with h | h
    · rcases List.mem_append.mp h with h | h
      · exact (mem_joinQuery h).1
      · exact (mem_joinQuery h).1
    · exact (mem_joinQuery h).1
  · rw [if_neg hc] at h
    simp at h

/-- Every row the handler gathers is a base-table row. -/
theorem mem_searchUnionRows {db : DB} {p : Params} {c : Carta}
    (h : c ∈ searchUnionRows db p) : c ∈ db.cartas := by
  unfold searchUnionRows at h
  rcases List.mem_append.mp h with h | h
  · rcases List.mem_append.mp h with h | h
    · rcases List.mem_append.mp h with h | h
      · rcases List.mem_flatMap.mp h with ⟨t, _, hj⟩
        exact (mem_joinForTipo hj).1
      · exact (mem_cartasRestRows h).1
    · unfold cartasAllRows at h
      by_cases hc : noFilterCond p = true
      · rw [if_pos hc] at h
        exact h
      · rw [if_neg hc] at h
        simp at h
  · exact mem_subCartasRows h

/- Handler inversion. -/

/-- Valid realm tokens make the realm validation pass. -/
theorem validation_reinos_none {p : Params} (hv : validationOk p) :
    (normReinos p.reino).find? (fun r => !(validReinos.contains r)) = none := by
  apply List.find?_eq_none.mpr
  intro r hr
  rw [hv.1 r hr]
  simp

/-- Valid type tokens make the type validation pass. -/
theorem validation_tipos_none {p : Params} (hv : validationOk p) :
    (normTipos p.tipo).find? (fun t => (tipoMap t).isNone) = none := by
  apply List.find?_eq_none.mpr
  intro t ht hcontra
  rw [Option.isNone_iff_eq_none] at hcontra
  have := hv.2 t ht
  rw [hcontra] at this
  simp at this

/-- With valid tokens and a truthy physical id the handler runs exactly the
idFisico lookup. -/
theorem searchCards_idFisico (db : DB) {p : Params} {s : String}
    (hp : p.idFisico = some s) (hs : ¬ s = "") (hv : validationOk p) :
    searchCards db p = Except.ok (idFisicoObjs db s)
      ∧ searchQueryCount db p = idFisicoCount db s := by
  have hid : given p.idFisico = true := by
    rw [hp]
    unfold given
    simp [hs]
  have hget : p.idFisico.getD "" = s := by rw [hp]; rfl
  unfold searchCards searchQueryCount searchCardsLog
  rw [validation_reinos_none hv, validation_tipos_none hv, hid, hget]
  exact ⟨rfl, rfl⟩

/-- With valid tokens and no truthy physical id the handler output is the
merged deduplicated row list. -/
theorem searchCards_general (db : DB) {p : Params}
    (hid : given p.idFisico = false) (hv : validationOk p) :
    searchCards db p
      = Except.ok ((searchDedupRows db p).map
          (mergeRow (enrichMaps db (searchDedupRows db p)))) := by
  unfold searchCards searchCardsLog
  rw [validation_reinos_none hv, validation_tipos_none hv, hid]
  by_cases he : (searchDedupRows db p).isEmpty = true
  · have hnil : searchDedupRows db p = [] := List.isEmpty_iff.mp he
    simp [he, hnil]
  · simp [he]

/-- Truthiness of an optional string parameter, unfolded. -/
theorem given_true_iff {o : Option String} :
    given o = true ↔ ∃ s, o = some s ∧ ¬ s = "" := by
  cases o with
  | none => simp [given]
  | some s => simp [given]

/-- Inversion of any ok outcome of the handler: validation passed and the
output is either the idFisico lookup or the merged deduplicated rows. -/
theorem searchCards_ok_inv {db : DB} {p : Params} {out : List OutObj}
    (hok : searchCards db p = Except.ok out) :
    validationOk p
      ∧ ((∃ s, p.idFisico = some s ∧ ¬ s = "" ∧ out = idFisicoObjs db s)
        ∨ (given p.idFisico = false
            ∧ out = (searchDedupRows db p).map
                (mergeRow (enrichMaps db (searchDedupRows db p))))) := by
  have hok' := hok
  unfold searchCards searchCardsLog at hok'
  cases hfr : (normReinos p.reino).find? (fun r => !(validReinos.contains r)) with
  | some r => rw [hfr] at hok'; simp at hok'
  | none =>
    rw [hfr] at hok'
    cases hft : (normTipos p.tipo).find? (fun t => (tipoMap t).isNone) with
    | some t => rw [hft] at hok'; simp at hok'
    | none =>
      have hv : validationOk p := by
        constructor
        · intro r hr
          have hno := List.find?_eq_none.mp hfr r hr
          simpa using hno
        · intro t ht
          have hno := List.find?_eq_none.mp hft t ht
          cases htm : tipoMap t with
          | none => rw [htm] at hno; simp at hno
          | some v => rfl
      refine ⟨hv, ?_⟩
      by_cases hid : given p.idFisico = true
      · obtain ⟨s, hps, hs⟩ := given_true_iff.mp hid
        left
        refine ⟨s, hps, hs, ?_⟩
        have h2 := (searchCards_idFisico db hps hs hv).1
        rw [h2] at hok
        injection hok with h3
        exact h3.symm
      · right
        have hid' : given p.idFisico = false := by
          cases hgf : given p.idFisico
          · rfl
          · exact absurd hgf hid
        refine ⟨hid', ?_⟩
        have h2 := searchCards_general db hid' hv
        rw [h2] at hok
        injection hok with h3
        exact h3.symm

/- LIKE matcher lemmas. -/

/-- The fuel of `likeMatchAux` is irrelevant once it exceeds the combined
input length. -/
theorem likeMatchAux_irrel :
    ∀ (f₁ f₂ : Nat) (p t : List Char), p.length + t.length < f₁ →
      p.length + t.length < f₂ → likeMatchAux f₁ p t = likeMatchAux f₂ p t := by
  intro f₁
  induction f₁ with
  | zero => intro f₂ p t h₁ h₂; omega
  | succ f₁ ih =>
    intro f₂ p t h₁ h₂
    cases f₂ with
    | zero => omega
    | succ f₂ =>
      cases p with
      | nil => rfl
      | cons a ps =>
        simp only [likeMatchAux]
        by_cases ha : a = '%'
        · rw [if_pos ha, if_pos ha]
          congr 1
          · apply ih <;> (simp only [List.length_cons] at h₁ h₂ ⊢; omega)
          · cases t with
            | nil => rfl
            | cons c ts =>
              dsimp only
              apply ih <;> (simp only [List.length_cons] at h₁ h₂ ⊢; omega)
        · rw [if_neg ha, if_neg ha]
          cases t with
          | nil => rfl
          | cons c ts =>
            dsimp only
            congr 1
            apply ih <;> (simp only [List.length_cons] at h₁ h₂ ⊢; omega)

/-- A leading `%` over the empty text just drops the `%`. -/
theorem likeMatch_pct_nil (ps : List Char) :
    likeMatch ('%' :: ps) [] = likeMatch ps [] := by
  unfold likeMatch
  simp only [likeMatchAux, List.length_cons]
  simp only [if_true, Bool.or_false]
  apply likeMatchAux_irrel <;> (simp only [List.length_nil]; omega)

/-- A leading `%` over a cons text either matches here or skips one text
character. -/
theorem likeMatch_pct_cons (ps : List Char) (c : Char) (ts : List Char) :
    likeMatch ('%' :: ps) (c :: ts)
      = (likeMatch ps (c :: ts) || likeMatch ('%' :: ps) ts) := by
  unfold likeMatch
  simp only [likeMatchAux, List.length_cons]
  simp only [if_true]
  congr 1
  all_goals apply likeMatchAux_irrel <;>
    (simp only [List.length_cons]; omega)

/-- A literal pattern head never matches the empty text. -/
theorem likeMatch_lit_nil {a : Char} (ha : ¬ a = '%') (ps : List Char) :
    likeMatch (a :: ps) [] = false := by
  unfold likeMatch
  simp only [likeMatchAux, List.length_cons]
  rw [if_neg ha]

/-- A literal pattern head consumes exactly one text character. -/
theorem likeMatch_lit_cons {a : Char} (ha : ¬ a = '%') (ps : List Char)
    (c : Char) (ts : List Char) :
    likeMatch (a :: ps) (c :: ts)
      = ((a == '_' || a == c) && likeMatch ps ts) := by
  unfold likeMatch
  simp only [likeMatchAux, List.length_cons]
  rw [if_neg ha]
  congr 1
  apply likeMatchAux_irrel <;> omega

/-- The pattern `%` matches every text. -/
theorem likeMatch_pct_all (t : List Char) : likeMatch ['%'] t = true := by
  induction t with
  | nil => rfl
  | cons c ts ih =>
    rw [likeMatch_pct_cons]
    simp [ih]

/-- A wildcard-free pattern anchored by a trailing `%` matches exactly the
texts it prefixes. -/
theorem likeMatch_anchor : ∀ (s : List Char), noWild s →
    ∀ t, (likeMatch (s ++ ['%']) t = true ↔ s <+: t) := by
  intro s
  induction s with
  | nil =>
    intro _ t
    simp only [List.nil_append]
    simp [likeMatch_pct_all t]
  | cons a s ih =>
    intro hw t
    have ha : ¬ a = '%' := fun he => hw.1 (by rw [he]; exact List.mem_cons_self _ _)
    have ha2 : ¬ a = '_' := fun he => hw.2 (by rw [he]; exact List.mem_cons_self _ _)
    have hw' : noWild s :=
      ⟨fun hm => hw.1 (List.mem_cons_of_mem _ hm),
       fun hm => hw.2 (List.mem_cons_of_mem _ hm)⟩
    cases t with
    | nil =>
      rw [List.cons_append, likeMatch_lit_nil ha]
      simp
    | cons c ts =>
      rw [List.cons_append, likeMatch_lit_cons ha,
        beq_eq_false_iff_ne.mpr ha2]
      simp only [Bool.false_or, Bool.and_eq_true, beq_iff_eq]
      rw [List.cons_prefix_cons]
      constructor
      · rintro ⟨h1, h2⟩
        exact ⟨h1, (ih hw' ts).mp h2⟩
      · rintro ⟨h1, h2⟩
        exact ⟨h1, (ih hw' ts).mpr h2⟩

/-- A leading `%` matches exactly when the rest matches some suffix. -/
theorem likeMatch_pct_iff (ps : List Char) :
    ∀ t, (likeMatch ('%' :: ps) t = true
      ↔ ∃ u, u <:+ t ∧ likeMatch ps u = true) := by
  intro t
  induction t with
  | nil =>
    rw [likeMatch_pct_nil]
    constructor
    · intro h
      exact ⟨[], List.suffix_refl _, h⟩
    · rintro ⟨u, hu, hm⟩
      have hun : u = [] := List.suffix_nil.mp hu
      rw [hun] at hm
      exact hm
  | cons c ts ih =>
    rw [likeMatch_pct_cons]
    simp only [Bool.or_eq_true]
    constructor
    · rintro (h | h)
      · exact ⟨c :: ts, List.suffix_refl _, h⟩
      · rcases ih.mp h with ⟨u, hu, hm⟩
        exact ⟨u, hu.trans (List.suffix_cons c ts), hm⟩
    · rintro ⟨u, hu, hm⟩
      rcases List.suffix_cons_iff.mp hu with rfl | hu'
      · exact Or.inl hm
      · exact Or.inr (ih.mpr ⟨u, hu', hm⟩)

/-- A wildcard-free word wrapped in `%...%` matches exactly the texts that
contain it. -/
theorem likeMatch_noWild_iff {s : List Char} (hw : noWild s) (t : List Char) :
    (likeMatch ('%' :: (s ++ ['%'])) t = true) ↔ s <:+: t := by
  rw [likeMatch_pct_iff]
  constructor
  · rintro ⟨u, hu, hm⟩
    exact List.infix_iff_prefix_suffix.mpr
      ⟨u, (likeMatch_anchor s hw u).mp hm, hu⟩
  · intro h
    rcases List.infix_iff_prefix_suffix.mp h with ⟨u, hp, hsuf⟩
    exact ⟨u, hsuf, (likeMatch_anchor s hw u).mpr hp⟩

/-- For a wildcard-free (lower-cased) name filter the LIKE query is
case-insensitive substring containment. -/
theorem nameLike_noWild {raw nombre : String}
    (hw : noWild (lowerStr raw).data) (h : nameLike raw nombre = true) :
    (lowerStr raw).data <:+: (lowerStr nombre).data := by
  unfold nameLike likePattern at h
  exact (likeMatch_noWild_iff hw _).mp h

/- Record projections (definitional). -/

/-- The attributes of a built record. -/
theorem mkObj_extra (c : Carta) (e : Option MergedExtra) :
    (mkObj c e).extra = e := rfl

/-- The card type of a built record. -/
theorem mkObj_tipoCarta (c : Carta) (e : Option MergedExtra) :
    (mkObj c e).tipoCarta = c.tipo_carta := rfl

/-- The subtype resolution of the idFisico branch yields no attributes or
the fields of one row of one subtype table. -/
theorem idFisicoExtra_cases (db : DB) (c : Carta) :
    (idFisicoExtra db c).1 = none
    ∨ (∃ b ∈ db.bestias, (idFisicoExtra db c).1 = some (bestiaExtra b))
    ∨ (∃ r ∈ db.reinas, (idFisicoExtra db c).1 = some (reinaExtra r))
    ∨ (∃ t ∈ db.tokens, (idFisicoExtra db c).1 = some (tokenExtra t)) := by
  unfold idFisicoExtra
  by_cases h1 : (c.tipo_carta == "BESTIA_NORMAL"
      || c.tipo_carta == "BESTIA_HABILIDAD") = true
  · rw [if_pos h1]
    cases hh : (db.bestias.filter (fun b => b.id == c.id)).head? with
    | none => left; simp [hh]
    | some b =>
      right; left
      exact ⟨b, (List.mem_filter.mp (List.mem_of_mem_head? hh)).1, by simp [hh]⟩
  · rw [if_neg h1]
    by_cases h2 : (c.tipo_carta == "REINA") = true
    · rw [if_pos h2]
      cases hh : (db.reinas.filter (fun r => r.id == c.id)).head? with
      | none => left; simp [hh]
      | some r =>
        right; right; left
        exact ⟨r, (List.mem_filter.mp (List.mem_of_mem_head? hh)).1, by simp [hh]⟩
    · rw [if_neg h2]
      by_cases h3 : (c.tipo_carta == "TOKEN") = true
      · rw [if_pos h3]
        cases hh : (db.tokens.filter (fun t => t.id == c.id)).head? with
        | none => left; simp [hh]
        | some t =>
          right; right; right
          exact ⟨t, (List.mem_filter.mp (List.mem_of_mem_head? hh)).1, by simp [hh]⟩
      · rw [if_neg h3]
        left
        rfl

/-- The merged attributes of a result row come from at most one of the
three maps, hence from one row of one subtype table. -/
theorem mergeRow_cases (db : DB) (todas : List Carta) (c : Carta) :
    (mergeRow (enrichMaps db todas) c).extra = none
    ∨ (∃ b ∈ db.bestias,
        (mergeRow (enrichMaps db todas) c).extra = some (bestiaExtra b))
    ∨ (∃ r ∈ db.reinas,
        (mergeRow (enrichMaps db todas) c).extra = some (reinaExtra r))
    ∨ (∃ t ∈ db.tokens,
        (mergeRow (enrichMaps db todas) c).extra = some (tokenExtra t)) := by
  cases hb : (bMapOf db todas).1 c.id with
  | some b =>
    right; left
    exact ⟨b, (bMapOf_some hb).1, by simp [mergeRow, enrichMaps, mkObj, hb]⟩
  | none =>
    cases hr : (rMapOf db todas).1 c.id with
    | some r =>
      right; right; left
      exact ⟨r, (rMapOf_some hr).1, by simp [mergeRow, enrichMaps, mkObj, hb, hr]⟩
    | none =>
      cases ht : (tMapOf db todas).1 c.id with
      | some t =>
        right; right; right
        exact ⟨t, (tMapOf_some ht).1,
          by simp [mergeRow, enrichMaps, mkObj, hb, hr, ht]⟩
      | none =>
        left
        simp [mergeRow, enrichMaps, mkObj, hb, hr, ht]

/-- C3: the deduplicated result rows have pairwise distinct base ids, each
kept row is the first gathered row carrying its id (first occurrence wins),
and the general-branch output is the enrichment of exactly this
deduplicated list — deduplication by base id happens before enrichment, so
the returned array never carries two records of the same base card. -/
theorem C3_dedup_invariant :
    (∀ (db : DB) (p : Params), ((searchDedupRows db p).map (·.id)).Nodup)
    ∧ (∀ (db : DB) (p : Params) (c : Carta), c ∈ searchDedupRows db p →
        (searchUnionRows db p).find? (fun x => x.id == c.id) = some c)
    ∧ (∀ (db : DB) (p : Params), given p.idFisico = false → validationOk p →
        searchCards db p
          = Except.ok ((searchDedupRows db p).map
              (mergeRow (enrichMaps db (searchDedupRows db p))))) := by
  refine ⟨?_, ?_, ?_⟩
  · intro db p
    exact dedupById_nodup _
  · intro db p c hc
    exact dedupById_find hc
  · intro db p hid hv
    exact searchCards_general db hid hv

/-- Witness: C3 instantiated at the concrete store and the
`tipo=RECURSO&reino=PYRO` request, with the Res row as kept row. -/
theorem C3_dedup_invariant_witness :
    ((searchDedupRows dbW pResPyro).map (·.id)).Nodup
    ∧ (searchUnionRows dbW pResPyro).find?
        (fun x => x.id == (⟨5, some "g5", some "f5", "Res", "d5", "RECURSO"⟩ : Carta).id)
        = some ⟨5, some "g5", some "f5", "Res", "d5", "RECURSO"⟩
    ∧ searchCards dbW pResPyro
        = Except.ok ((searchDedupRows dbW pResPyro).map
            (mergeRow (enrichMaps dbW (searchDedupRows dbW pResPyro)))) :=
  ⟨C3_dedup_invariant.1 dbW pResPyro,
   C3_dedup_invariant.2.1 dbW pResPyro
     ⟨5, some "g5", some "f5", "Res", "d5", "RECURSO"⟩ (by decide),
   C3_dedup_invariant.2.2 dbW pResPyro (by decide) (by decide)⟩

/-- C7: with no idFisico, no name, no type, no realm and no level value the
search returns every base-table card, each enriched by the step-12/13
subtype merge. -/
theorem C7_empty_filter_fallback (db : DB) (p : Params)
    (hwf : (db.cartas.map (·.id)).Nodup)
    (hid : given p.idFisico = false) (hnom : given p.nombre = false)
    (htipo : normTipos p.tipo = []) (hreino : normReinos p.reino = [])
    (hniv : normNiveles p.nivel = []) :
    searchCards db p
      = Except.ok (db.cartas.map (mergeRow (enrichMaps db db.cartas))) := by
  have hv : validationOk p := by
    constructor
    · intro r hr
      rw [hreino] at hr
      simp at hr
    · intro t ht
      rw [htipo] at ht
      simp at ht
  have hrows : searchUnionRows db p = db.cartas := by
    unfold searchUnionRows cartasAndRows cartasRestRows cartasAllRows
      subCartasRows tiposANDof tiposRestantesOf noFilterCond subScanCond
    simp [htipo, hreino, hniv, hnom]
  have hded : searchDedupRows db p = db.cartas := by
    unfold searchDedupRows
    rw [hrows]
    exact dedupById_eq_self hwf
  rw [searchCards_general db hid hv, hded]

/-- Witness: C7 at the concrete store and the empty request. -/
theorem C7_empty_filter_fallback_witness :
    searchCards dbW pEmpty
      = Except.ok (dbW.cartas.map (mergeRow (enrichMaps dbW dbW.cartas))) :=
  C7_empty_filter_fallback dbW pEmpty (by decide) (by decide) (by decide)
    (by decide) (by decide) (by decide)

/-- C10: every output record is enriched from at most one subtype map (the
merge takes the bestias map, then reinas, then tokens), so a record either
carries no attributes or exactly the fields of one row of one subtype
table — on every store, including ones violating the one-subtype-row
invariant. -/
theorem C10_no_subtype_mixing (db : DB) (p : Params) (out : List OutObj)
    (o : OutObj) (hok : searchCards db p = Except.ok out) (ho : o ∈ out) :
    o.extra = none
    ∨ (∃ b ∈ db.bestias, o.extra = some (bestiaExtra b))
    ∨ (∃ r ∈ db.reinas, o.extra = some (reinaExtra r))
    ∨ (∃ t ∈ db.tokens, o.extra = some (tokenExtra t)) := by
  rcases (searchCards_ok_inv hok).2 with ⟨s, hps, hs, hout⟩ | ⟨hid, hout⟩
  · rw [hout] at ho
    unfold idFisicoObjs at ho
    cases hfil : db.cartas.filter (fun c => c.id_fisico == some s) with
    | nil =>
      rw [hfil] at ho
      simp at ho
    | cons c rest =>
      rw [hfil] at ho
      simp only [List.mem_singleton] at ho
      subst ho
      simpa [mkObj_extra] using idFisicoExtra_cases db c
  · rw [hout] at ho
    rcases List.mem_map.mp ho with ⟨c, hc, rfl⟩
    exact mergeRow_cases db (searchDedupRows db p) c

/-- Witness: C10 applied to the `idFisico=f1` lookup on the concrete
store. -/
theorem C10_no_subtype_mixing_witness :
    oDrake.extra = none
    ∨ (∃ b ∈ dbW.bestias, oDrake.extra = some (bestiaExtra b))
    ∨ (∃ r ∈ dbW.reinas, oDrake.extra = some (reinaExtra r))
    ∨ (∃ t ∈ dbW.tokens, oDrake.extra = some (tokenExtra t)) :=
  C10_no_subtype_mixing dbW pIdF [oDrake] oDrake (by decide) (by decide)

/-- A token is an infix of a message that embeds it between two fixed
parts. -/
theorem mentions_append (a tok rest : String) :
    tok.data <:+: (a ++ tok ++ rest).data := by
  rw [String.data_append, String.data_append]
  exact List.infix_append a.data tok.data rest.data

/-- A token is an infix of a message that appends it to a fixed prefix. -/
theorem mentions_append2 (a tok : String) : tok.data <:+: (a ++ tok).data := by
  rw [String.data_append]
  have h := List.infix_append a.data tok.data []
  simpa using h

/-- C5: an invalid realm token or an invalid type token makes the handler
return a 400 error whose message contains an offending token, with zero
storage queries issued — validation completes before any storage access. -/
theorem C5_validation_fail_fast (db : DB) (p : Params)
    (hbad : (∃ r ∈ normReinos p.reino, r ∉ validReinos)
      ∨ (∃ t ∈ normTipos p.tipo, tipoMap t = none)) :
    (∃ tok msg,
        ((tok ∈ normReinos p.reino ∧ tok ∉ validReinos)
          ∨ (tok ∈ normTipos p.tipo ∧ tipoMap tok = none))
        ∧ searchCards db p = Except.error ⟨400, msg⟩
        ∧ tok.data <:+: msg.data)
    ∧ searchQueryCount db p = 0 := by
  cases hfr : (normReinos p.reino).find? (fun r => !(validReinos.contains r)) with
  | some r =>
    have hrmem := List.mem_of_find?_eq_some hfr
    have hrbad : r ∉ validReinos := by
      have hp := List.find?_some hfr
      simpa using hp
    have hsc : searchCardsLog db p
        = (Except.error ⟨400, "Reino inválido: " ++ r ++ ". Válidos: "
            ++ String.intercalate ", " validReinos⟩, 0) := by
      unfold searchCardsLog
      rw [hfr]
    refine ⟨⟨r, "Reino inválido: " ++ r ++ (". Válidos: "
        ++ String.intercalate ", " validReinos), Or.inl ⟨hrmem, hrbad⟩, ?_, ?_⟩, ?_⟩
    · unfold searchCards
      rw [hsc]
      rw [String.append_assoc]
    · exact mentions_append _ r _
    · unfold searchQueryCount
      rw [hsc]
  | none =>
    have hallr : ∀ r ∈ normReinos p.reino, r ∈ validReinos := by
      intro r hr
      have hno := List.find?_eq_none.mp hfr r hr
      simpa using hno
    rcases hbad with ⟨r, hr, hrbad⟩ | ⟨t, ht, htbad⟩
    · exact absurd (hallr r hr) hrbad
    · cases hft : (normTipos p.tipo).find? (fun t => (tipoMap t).isNone) with
      | none =>
        have hno := List.find?_eq_none.mp hft t ht
        rw [htbad] at hno
        simp at hno
      | some t₀ =>
        have htmem := List.mem_of_find?_eq_some hft
        have htbad₀ : tipoMap t₀ = none := by
          have hp := List.find?_some hft
          exact Option.isNone_iff_eq_none.mp hp
        have hsc : searchCardsLog db p
            = (Except.error ⟨400, "Tipo inválido: " ++ t₀⟩, 0) := by
          unfold searchCardsLog
          rw [hfr, hft]
        refine ⟨⟨t₀, "Tipo inválido: " ++ t₀, Or.inr ⟨htmem, htbad₀⟩, ?_, ?_⟩, ?_⟩
        · unfold searchCards
          rw [hsc]
        · exact mentions_append2 _ t₀
        · unfold searchQueryCount
          rw [hsc]

/-- Witness: C5 at a request with both an invalid realm and an invalid
type token; the realm is validated first. -/
theorem C5_validation_fail_fast_witness :
    (∃ tok msg,
        ((tok ∈ normReinos pBadBoth.reino ∧ tok ∉ validReinos)
          ∨ (tok ∈ normTipos pBadBoth.tipo ∧ tipoMap tok = none))
        ∧ searchCards dbW pBadBoth = Except.error ⟨400, msg⟩
        ∧ tok.data <:+: msg.data)
    ∧ searchQueryCount dbW pBadBoth = 0 :=
  C5_validation_fail_fast dbW pBadBoth
    (Or.inl ⟨"FOO", by decide, by decide⟩)

/-- The general branch issues at least one query whenever level values are
present. -/
theorem branchQueryCount_pos {p : Params} (hniv : normNiveles p.nivel ≠ []) :
    1 ≤ branchQueryCount p := by
  unfold branchQueryCount
  by_cases hA : (tiposANDof p).isEmpty = true
  · have hnb : (normNiveles p.nivel).isEmpty = false := by
      cases hn : normNiveles p.nivel with
      | nil => exact absurd hn hniv
      | cons a l => rfl
    have hsc : subScanCond p = true := by
      unfold subScanCond
      rw [hA, hnb]
      simp
    rw [hsc]
    simp
  · have hlen : 1 ≤ (tiposANDof p).length := by
      cases hn : tiposANDof p with
      | nil => rw [hn] at hA; simp at hA
      | cons a l => simp
    omega

/-- C6 (amended): the handler performs no level validation — with valid
type and realm tokens it always returns an ok result whatever `nivel`
contains, and a request with level values still issues at least one
storage query. -/
theorem C6_no_level_validation (db : DB) (p : Params) (hv : validationOk p) :
    (∃ out, searchCards db p = Except.ok out)
    ∧ (normNiveles p.nivel ≠ [] → 1 ≤ searchQueryCount db p) := by
  constructor
  · by_cases hid : given p.idFisico = true
    · obtain ⟨s, hps, hs⟩ := given_true_iff.mp hid
      exact ⟨_, (searchCards_idFisico db hps hs hv).1⟩
    · have hid' : given p.idFisico = false := by
        cases hgf : given p.idFisico
        · rfl
        · exact absurd hgf hid
      exact ⟨_, searchCards_general db hid' hv⟩
  · intro hniv
    unfold searchQueryCount searchCardsLog
    rw [validation_reinos_none hv, validation_tipos_none hv]
    by_cases hid : given p.idFisico = true
    · rw [hid]
      simp only [if_true]
      unfold idFisicoCount
      cases db.cartas.filter
          (fun c => c.id_fisico == some (p.idFisico.getD "")) with
      | nil => simp
      | cons c rest => simp
    · have hid' : given p.idFisico = false := by
        cases hgf : given p.idFisico
        · rfl
        · exact absurd hgf hid
      rw [hid']
      have hb := branchQueryCount_pos hniv
      by_cases he : (searchDedupRows db p).isEmpty = true
      · simp [he]
        omega
      · simp [he]
        omega

/-- Witness: C6 at the `nivel=999` request. -/
theorem C6_no_level_validation_witness :
    (∃ out, searchCards dbW pLevel999 = Except.ok out)
    ∧ (normNiveles pLevel999.nivel ≠ [] → 1 ≤ searchQueryCount dbW pLevel999) :=
  C6_no_level_validation dbW pLevel999 (by decide)

/-- C6 counterexample: `nivel=999` is out of range for every card, yet the
handler answers 200 with an empty array — after issuing three subtype-scan
queries — instead of a 400 validation error. -/
theorem C6_counterexample :
    searchCards dbW pLevel999 = Except.ok []
    ∧ searchQueryCount dbW pLevel999 = 3 := by decide

/-- C1 counterexample: the name filter is passed to SQL LIKE unescaped, so
`nombre=d_ake` matches the card named `Drake` although `"d_ake"` is not a
substring of `"drake"` — the returned card violates case-insensitive
substring containment. -/
theorem C1_counterexample :
    searchCards dbW pWild = Except.ok [oDrake]
    ∧ pWild.nombre = some "d_ake"
    ∧ oDrake.nombre = "Drake"
    ∧ nameLike "d_ake" "Drake" = true
    ∧ ¬ ((lowerStr "d_ake").data <:+: (lowerStr "Drake").data) := by decide

/-- C2 counterexample: for `tipo=RECURSO&reino=PYRO` the subtype-scan
condition (`tiposAND` empty) still fires, so a beast card is returned for a
request whose type set is non-empty and contains only plain types. -/
theorem C2_counterexample :
    searchCards dbW pResPyro = Except.ok [oRes, oDrake]
    ∧ normTipos pResPyro.tipo = ["RECURSO"]
    ∧ oDrake.tipoCarta = "BESTIA_NORMAL"
    ∧ ¬ oDrake.tipoCarta ∈ normTipos pResPyro.tipo := by decide

/-- C4 counterexample: realm validation runs before the idFisico branch, so
adding `reino=FOO` to an `idFisico=f1` lookup turns the singleton result
into a 400 error — the other parameters are not ignored in this mode. -/
theorem C4_counterexample :
    searchCards dbW pIdF = Except.ok [oDrake]
    ∧ searchCards dbW pIdFBadReino = Except.error
        ⟨400, "Reino inválido: FOO. Válidos: NATURA, NICROM, PYRO, AQUA"⟩
    ∧ pIdF.idFisico = pIdFBadReino.idFisico
    ∧ searchCards dbW pIdF ≠ searchCards dbW pIdFBadReino := by decide

/-- C8 counterexample: the search never consults the conjuros subtype
table, so a CONJURO_NORMAL card with an existing Spell subtype row is
returned without any subtype field. -/
theorem C8_counterexample :
    searchCards dbW pSpell = Except.ok [oSpell]
    ∧ oSpell.extra = none
    ∧ (⟨4, "RITUAL"⟩ : Conjuro) ∈ dbW.conjuros
    ∧ oSpell.idGlobal = some "g4" := by decide

/-- C9 counterexample: `tipo=REINA,TOKEN` and `tipo=TOKEN,REINA` normalize
to the same token set, yet the responses differ (the per-type queries are
issued in request order, which orders the result array). -/
theorem C9_counterexample :
    normTipos pQT.tipo = ["REINA", "TOKEN"]
    ∧ normTipos pTQ.tipo = ["TOKEN", "REINA"]
    ∧ searchCards dbW pQT = Except.ok [oQueen, oTok]
    ∧ searchCards dbW pTQ = Except.ok [oTok, oQueen]
    ∧ searchCards dbW pQT ≠ searchCards dbW pTQ := by decide

/-- C4 (amended): once validation passes, a truthy `idFisico` short-circuits
the search: the result is the physical-id lookup alone (a singleton or
empty), it does not depend on the other parameters, and the returned record
is the first base row with that physical id merged with the subtype row
resolved by its card type. -/
theorem C4_idFisico_mode (db : DB) (p q : Params) (s : String)
    (hp : p.idFisico = some s) (hq : q.idFisico = some s) (hs : ¬ s = "")
    (hvp : validationOk p) (hvq : validationOk q) :
    searchCards db p = searchCards db q
    ∧ searchCards db p = Except.ok (idFisicoObjs db s)
    ∧ (idFisicoObjs db s = [] ∨ ∃ o, idFisicoObjs db s = [o])
    ∧ (∀ o ∈ idFisicoObjs db s, ∃ c, c ∈ db.cartas ∧ c.id_fisico = some s
        ∧ o = mkObj c (idFisicoExtra db c).1) := by
  have h1 := (searchCards_idFisico db hp hs hvp).1
  have h2 := (searchCards_idFisico db hq hs hvq).1
  refine ⟨by rw [h1, h2], h1, ?_, ?_⟩
  · unfold idFisicoObjs
    cases db.cartas.filter (fun c => c.id_fisico == some s) with
    | nil => exact Or.inl rfl
    | cons c rest => exact Or.inr ⟨_, rfl⟩
  · intro o ho
    unfold idFisicoObjs at ho
    cases hfil : db.cartas.filter (fun c => c.id_fisico == some s) with
    | nil =>
      rw [hfil] at ho
      simp at ho
    | cons c rest =>
      rw [hfil] at ho
      simp only [List.mem_singleton] at ho
      subst ho
      have hcmem : c ∈ db.cartas.filter (fun c => c.id_fisico == some s) := by
        rw [hfil]
        exact List.mem_cons_self _ _
      have hcf := List.mem_filter.mp hcmem
      exact ⟨c, hcf.1, by simpa using hcf.2, rfl⟩

/-- Witness: C4 (amended) for `idFisico=f1` with and without extra valid
filters. -/
theorem C4_idFisico_mode_witness :
    searchCards dbW pIdF = searchCards dbW pIdFExtra
    ∧ searchCards dbW pIdF = Except.ok (idFisicoObjs dbW "f1")
    ∧ (idFisicoObjs dbW "f1" = [] ∨ ∃ o, idFisicoObjs dbW "f1" = [o])
    ∧ (∀ o ∈ idFisicoObjs dbW "f1", ∃ c, c ∈ dbW.cartas
        ∧ c.id_fisico = some "f1" ∧ o = mkObj c (idFisicoExtra dbW c).1) :=
  C4_idFisico_mode dbW pIdF pIdFExtra "f1" (by decide) (by decide) (by decide)
    (by decide) (by decide)

/-- C2 (amended): the implicit subtype scan fires whenever no
attribute-bearing type is requested and a realm, level or name filter is
present — not only when the type list is empty.  Hence a non-empty request
of plain types only is guaranteed to return only cards of those types when
no realm, level or name filter accompanies it. -/
theorem C2_plain_types_only (db : DB) (p : Params) (out : List OutObj)
    (hid : given p.idFisico = false)
    (hne : normTipos p.tipo ≠ [])
    (hplain : ∀ t ∈ normTipos p.tipo, ¬ t ∈ tiposConReino)
    (hreino : normReinos p.reino = []) (hniv : normNiveles p.nivel = [])
    (hnom : given p.nombre = false)
    (hok : searchCards db p = Except.ok out) :
    ∀ o ∈ out, o.tipoCarta ∈ normTipos p.tipo := by
  rcases (searchCards_ok_inv hok).2 with ⟨s, hps, hs, _⟩ | ⟨_, hout⟩
  · rw [hps] at hid
    unfold given at hid
    simp [hs] at hid
  · intro o ho
    rw [hout] at ho
    rcases List.mem_map.mp ho with ⟨c, hc, rfl⟩
    have hcu := dedupById_subset hc
    have hA : cartasAndRows db p = [] := by
      unfold cartasAndRows
      have hAnil : tiposANDof p = [] := by
        unfold tiposANDof
        apply List.filter_eq_nil_iff.mpr
        intro t ht hcontra
        exact hplain t ht ((contains_true_iff _ _).mp hcontra)
      rw [hAnil]
      rfl
    have hAll : cartasAllRows db p = [] := by
      unfold cartasAllRows noFilterCond
      have hte : (normTipos p.tipo).isEmpty = false := by
        cases hn : normTipos p.tipo with
        | nil => exact absurd hn hne
        | cons a l => rfl
      rw [hte]
      simp
    have hSub : subCartasRows db p = [] := by
      unfold subCartasRows subScanCond
      rw [hreino, hniv, hnom]
      simp
    have hcr : c ∈ cartasRestRows db p := by
      unfold searchUnionRows at hcu
      rw [hA, hAll, hSub] at hcu
      simpa using hcu
    have hrest := (mem_cartasRestRows hcr).2.1
    unfold tiposRestantesOf at hrest
    have hmem := List.mem_of_mem_filter hrest
    exact hmem

/-- Witness: C2 (amended) at the `tipo=RECURSO,CONJURO_NORMAL` request and
the returned Spell record. -/
theorem C2_plain_types_only_witness :
    oSpell.tipoCarta ∈ normTipos pPlain.tipo :=
  C2_plain_types_only dbW pPlain [oSpell, oRes] (by decide) (by decide)
    (by decide) (by decide) (by decide) (by decide) (by decide) oSpell
    (by decide)

/- Exact enrichment of a result row, under the data-model invariants. -/

/-- A beast-typed result row is enriched with its unique bestias row. -/
theorem mergeRow_extra_bestia {db : DB} {todas : List Carta} {c : Carta}
    {b : Bestia} (hwf : WFdb db) (hb : b ∈ db.bestias) (hbid : b.id = c.id)
    (hctodas : c ∈ todas)
    (hct : c.tipo_carta = "BESTIA_NORMAL" ∨ c.tipo_carta = "BESTIA_HABILIDAD") :
    (mergeRow (enrichMaps db todas) c).extra = some (bestiaExtra b) := by
  have hbsome := bMapOf_eq_some hwf.2.1 hb hbid hctodas hct
  simp [mergeRow, enrichMaps, mkObj, hbsome]

/-- A queen-typed result row is enriched with its unique reinas row. -/
theorem mergeRow_extra_reina {db : DB} {todas : List Carta} {c : Carta}
    {r : Reina} (hwf : WFdb db) (hty : TypedDB db) (hc : c ∈ db.cartas)
    (hr : r ∈ db.reinas) (hrid : r.id = c.id) (hctodas : c ∈ todas)
    (hct : c.tipo_carta = "REINA") :
    (mergeRow (enrichMaps db todas) c).extra = some (reinaExtra r) := by
  have hbnone : (bMapOf db todas).1 c.id = none := by
    apply bMapOf_none
    intro b hb hbid
    have h2 := hty.1 c hc b hb hbid
    rw [hct] at h2
    rcases h2 with h | h <;> simp at h
  have hrsome := rMapOf_eq_some hwf.2.2.1 hr hrid hctodas hct
  simp [mergeRow, enrichMaps, mkObj, hbnone, hrsome]

/-- A token-typed result row is enriched with its unique tokens row. -/
theorem mergeRow_extra_token {db : DB} {todas : List Carta} {c : Carta}
    {t : Token} (hwf : WFdb db) (hty : TypedDB db) (hc : c ∈ db.cartas)
    (ht : t ∈ db.tokens) (htid : t.id = c.id) (hctodas : c ∈ todas)
    (hct : c.tipo_carta = "TOKEN") :
    (mergeRow (enrichMaps db todas) c).extra = some (tokenExtra t) := by
  have hbnone : (bMapOf db todas).1 c.id = none := by
    apply bMapOf_none
    intro b hb hbid
    have h2 := hty.1 c hc b hb hbid
    rw [hct] at h2
    rcases h2 with h | h <;> simp at h
  have hrnone : (rMapOf db todas).1 c.id = none := by
    apply rMapOf_none
    intro r hr hrid
    have h2 := hty.2.1 c hc r hr hrid
    rw [hct] at h2
    simp at h2
  have htsome := tMapOf_eq_some hwf.2.2.2 ht htid hctodas hct
  simp [mergeRow, enrichMaps, mkObj, hbnone, hrnone, htsome]

/-- A result row with no subtype row in any of the three attribute tables
carries no attributes. -/
theorem mergeRow_extra_none {db : DB} {todas : List Carta} {c : Carta}
    (hbno : ∀ b ∈ db.bestias, b.id ≠ c.id)
    (hrno : ∀ r ∈ db.reinas, r.id ≠ c.id)
    (htno : ∀ t ∈ db.tokens, t.id ≠ c.id) :
    (mergeRow (enrichMaps db todas) c).extra = none := by
  simp [mergeRow, enrichMaps, mkObj, bMapOf_none hbno, rMapOf_none hrno,
    tMapOf_none htno]

/-- Every record of a general-branch answer is the merge of a deduplicated
row. -/
theorem out_mem_general {db : DB} {p : Params} {out : List OutObj} {o : OutObj}
    (hid : given p.idFisico = false)
    (hok : searchCards db p = Except.ok out) (ho : o ∈ out) :
    ∃ c ∈ searchDedupRows db p,
      o = mergeRow (enrichMaps db (searchDedupRows db p)) c := by
  rcases (searchCards_ok_inv hok).2 with ⟨s, hps, hs, _⟩ | ⟨_, hout⟩
  · rw [hps] at hid
    unfold given at hid
    simp [hs] at hid
  · rw [hout] at ho
    rcases List.mem_map.mp ho with ⟨c, hc, rfl⟩
    exact ⟨c, hc, rfl⟩

/-- When an attribute-bearing type is requested, a gathered row of that type
can only come from the per-type AND branch (step 7). -/
theorem and_branch_of_tipo {db : DB} {p : Params} {c : Carta} {t : String}
    (ht : t ∈ normTipos p.tipo) (htA : t ∈ tiposConReino)
    (hc : c ∈ searchUnionRows db p) (hct : c.tipo_carta = t) :
    c ∈ cartasAndRows db p := by
  have htAND : t ∈ tiposANDof p :=
    List.mem_filter.mpr ⟨ht, (contains_true_iff _ _).mpr htA⟩
  have hAndNe : (tiposANDof p).isEmpty = false := by
    cases hn : tiposANDof p with
    | nil => rw [hn] at htAND; simp at htAND
    | cons a l => rfl
  have hSub : subCartasRows db p = [] := by
    unfold subCartasRows subScanCond
    rw [hAndNe]
    simp
  have hAll : cartasAllRows db p = [] := by
    unfold cartasAllRows noFilterCond
    have hte : (normTipos p.tipo).isEmpty = false := by
      cases hn : normTipos p.tipo with
      | nil => rw [hn] at ht; simp at ht
      | cons a l => rfl
    rw [hte]
    simp
  unfold searchUnionRows at hc
  rw [hSub, hAll] at hc
  simp only [List.append_nil] at hc
  rcases List.mem_append.mp hc with h | h
  · exact h
  · exfalso
    have hrest := (mem_cartasRestRows h).2.1
    rw [hct] at hrest
    unfold tiposRestantesOf at hrest
    have hpred := (List.mem_filter.mp hrest).2
    rw [(contains_true_iff _ _).mpr htA] at hpred
    simp at hpred

/-- Packaging of the three AND-branch conclusions from the join predicates
of the matched subtype row. -/
theorem and_branch_conclusion {p : Params} {o : OutObj} {e : MergedExtra}
    {rOpt : Option String} {lvl : Int}
    (hextra : o.extra = some e) (hre : e.reino = rOpt) (hlv : e.lvl = lvl)
    (hr : reinoPred (normReinos p.reino) rOpt = true)
    (hl : nivelPred (normNiveles p.nivel) lvl = true)
    (hn : nombrePred p.nombre o.nombre = true) :
    (normReinos p.reino ≠ [] →
      ∃ e rr, o.extra = some e ∧ e.reino = some rr ∧ rr ∈ normReinos p.reino)
    ∧ (normNiveles p.nivel ≠ [] →
      ∃ e, o.extra = some e ∧ e.lvl ∈ normNiveles p.nivel)
    ∧ (given p.nombre = true →
      nameLike (p.nombre.getD "") o.nombre = true
      ∧ (noWild (lowerStr (p.nombre.getD "")).data →
          (lowerStr (p.nombre.getD "")).data <:+: (lowerStr o.nombre).data)) := by
  refine ⟨?_, ?_, ?_⟩
  · intro hne
    rcases reinoPred_nonempty hne hr with ⟨rr, hrr, hmem⟩
    exact ⟨e, rr, hextra, by rw [hre, hrr], hmem⟩
  · intro hne
    refine ⟨e, hextra, ?_⟩
    rw [hlv]
    exact nivelPred_nonempty hne hl
  · intro hg
    have hnl := nombrePred_given hg hn
    exact ⟨hnl, fun hw => nameLike_noWild hw hnl⟩

/-- C1 (amended): in a search that names an attribute-bearing type, every
returned card of that type satisfies all given attribute constraints: its
realm and level fields come from the joined subtype row and lie in the
requested sets, and its name matches the `%nombre%` LIKE pattern
case-insensitively — which is substring containment whenever the name
contains no SQL wildcard. -/
theorem C1_and_within_type (db : DB) (p : Params) (t : String)
    (out : List OutObj) (o : OutObj)
    (hwf : WFdb db) (hty : TypedDB db)
    (hid : given p.idFisico = false)
    (ht : t ∈ normTipos p.tipo) (htA : t ∈ tiposConReino)
    (hok : searchCards db p = Except.ok out)
    (ho : o ∈ out) (hot : o.tipoCarta = t) :
    (normReinos p.reino ≠ [] →
      ∃ e rr, o.extra = some e ∧ e.reino = some rr ∧ rr ∈ normReinos p.reino)
    ∧ (normNiveles p.nivel ≠ [] →
      ∃ e, o.extra = some e ∧ e.lvl ∈ normNiveles p.nivel)
    ∧ (given p.nombre = true →
      nameLike (p.nombre.getD "") o.nombre = true
      ∧ (noWild (lowerStr (p.nombre.getD "")).data →
          (lowerStr (p.nombre.getD "")).data <:+: (lowerStr o.nombre).data)) := by
  rcases out_mem_general hid hok ho with ⟨c, hc, rfl⟩
  have hct : c.tipo_carta = t := hot
  have hcu : c ∈ searchUnionRows db p := dedupById_subset hc
  have hcA := and_branch_of_tipo ht htA hcu hct
  unfold cartasAndRows at hcA
  rcases List.mem_flatMap.mp hcA with ⟨t', ht', hj⟩
  have hct' : c.tipo_carta = t' := (mem_joinForTipo hj).2
  have htt' : t' = t := by rw [← hct', hct]
  subst htt'
  have hcases : t' = "BESTIA_NORMAL" ∨ t' = "BESTIA_HABILIDAD"
      ∨ t' = "REINA" ∨ t' = "TOKEN" := by
    simpa [tiposConReino] using htA
  rcases hcases with rfl | rfl | rfl | rfl
  · unfold joinForTipo at hj
    rw [if_neg (by decide), if_neg (by decide)] at hj
    obtain ⟨hcc, s', hs', hgid, _, hr, hl, hn⟩ := mem_joinQuery hj
    exact and_branch_conclusion
      (mergeRow_extra_bestia hwf hs' hgid hc (Or.inl hct)) rfl rfl hr hl hn
  · unfold joinForTipo at hj
    rw [if_neg (by decide), if_neg (by decide)] at hj
    obtain ⟨hcc, s', hs', hgid, _, hr, hl, hn⟩ := mem_joinQuery hj
    exact and_branch_conclusion
      (mergeRow_extra_bestia hwf hs' hgid hc (Or.inr hct)) rfl rfl hr hl hn
  · unfold joinForTipo at hj
    rw [if_pos (by decide)] at hj
    obtain ⟨hcc, s', hs', hgid, _, hr, hl, hn⟩ := mem_joinQuery hj
    exact and_branch_conclusion
      (mergeRow_extra_reina hwf hty hcc hs' hgid hc hct) rfl rfl hr hl hn
  · unfold joinForTipo at hj
    rw [if_neg (by decide), if_pos (by decide)] at hj
    obtain ⟨hcc, s', hs', hgid, _, hr, hl, hn⟩ := mem_joinQuery hj
    exact and_branch_conclusion
      (mergeRow_extra_token hwf hty hcc hs' hgid hc hct) rfl rfl hr hl hn

/-- Witness: C1 (amended) at `tipo=BESTIA_NORMAL&reino=PYRO&nivel=4` and
the returned Drake record. -/
theorem C1_and_within_type_witness :
    (normReinos pBeastPyro4.reino ≠ [] →
      ∃ e rr, oDrake.extra = some e ∧ e.reino = some rr
        ∧ rr ∈ normReinos pBeastPyro4.reino)
    ∧ (normNiveles pBeastPyro4.nivel ≠ [] →
      ∃ e, oDrake.extra = some e ∧ e.lvl ∈ normNiveles pBeastPyro4.nivel)
    ∧ (given pBeastPyro4.nombre = true →
      nameLike (pBeastPyro4.nombre.getD "") oDrake.nombre = true
      ∧ (noWild (lowerStr (pBeastPyro4.nombre.getD "")).data →
          (lowerStr (pBeastPyro4.nombre.getD "")).data
            <:+: (lowerStr oDrake.nombre).data)) :=
  C1_and_within_type dbW pBeastPyro4 "BESTIA_NORMAL" [oDrake] oDrake
    (by decide) (by decide) (by decide) (by decide) (by decide) (by decide)
    (by decide) (by decide)

/-- The idFisico subtype resolution of a beast-typed card. -/
theorem idFisicoExtra_bestia {db : DB} {c : Carta} {b : Bestia}
    (hwf : WFdb db) (hb : b ∈ db.bestias) (hbid : b.id = c.id)
    (hct : c.tipo_carta = "BESTIA_NORMAL" ∨ c.tipo_carta = "BESTIA_HABILIDAD") :
    (idFisicoExtra db c).1 = some (bestiaExtra b) := by
  unfold idFisicoExtra
  have hcond : (c.tipo_carta == "BESTIA_NORMAL"
      || c.tipo_carta == "BESTIA_HABILIDAD") = true := by
    rcases hct with h | h <;> simp [h]
  rw [if_pos hcond, filter_gid_singleton hwf.2.1 hb hbid]
  rfl

/-- The idFisico subtype resolution of a queen-typed card. -/
theorem idFisicoExtra_reina {db : DB} {c : Carta} {r : Reina}
    (hwf : WFdb db) (hr : r ∈ db.reinas) (hrid : r.id = c.id)
    (hct : c.tipo_carta = "REINA") :
    (idFisicoExtra db c).1 = some (reinaExtra r) := by
  unfold idFisicoExtra
  rw [hct, if_neg (by decide), if_pos (by decide),
    filter_gid_singleton hwf.2.2.1 hr hrid]
  rfl

/-- The idFisico subtype resolution of a token-typed card. -/
theorem idFisicoExtra_token {db : DB} {c : Carta} {t : Token}
    (hwf : WFdb db) (ht : t ∈ db.tokens) (htid : t.id = c.id)
    (hct : c.tipo_carta = "TOKEN") :
    (idFisicoExtra db c).1 = some (tokenExtra t) := by
  unfold idFisicoExtra
  rw [hct, if_neg (by decide), if_neg (by decide), if_pos (by decide),
    filter_gid_singleton hwf.2.2.2 ht htid]
  rfl

/-- The idFisico subtype resolution of a card with no subtype row in the
three attribute tables. -/
theorem idFisicoExtra_none {db : DB} {c : Carta}
    (hbno : ∀ b ∈ db.bestias, b.id ≠ c.id)
    (hrno : ∀ r ∈ db.reinas, r.id ≠ c.id)
    (htno : ∀ t ∈ db.tokens, t.id ≠ c.id) :
    (idFisicoExtra db c).1 = none := by
  unfold idFisicoExtra
  by_cases h1 : (c.tipo_carta == "BESTIA_NORMAL"
      || c.tipo_carta == "BESTIA_HABILIDAD") = true
  · rw [if_pos h1, filter_gid_nil hbno]
    rfl
  · rw [if_neg h1]
    by_cases h2 : (c.tipo_carta == "REINA") = true
    · rw [if_pos h2, filter_gid_nil hrno]
      rfl
    · rw [if_neg h2]
      by_cases h3 : (c.tipo_carta == "TOKEN") = true
      · rw [if_pos h3, filter_gid_nil htno]
        rfl
      · rw [if_neg h3]

/-- C8 (amended): on a store satisfying the data-model invariants, every
search output record stems from a base row and carries the attribute fields
of its subtype row exactly when one exists in the bestias, reinas or tokens
table — spell and resource cards never carry attribute fields, because the
conjuros subtype is not consulted by the search. -/
theorem C8_attribute_enrichment (db : DB) (p : Params) (out : List OutObj)
    (hwf : WFdb db) (hty : TypedDB db)
    (hok : searchCards db p = Except.ok out) :
    ∀ o ∈ out, ∃ c, c ∈ db.cartas ∧ o = mkObj c o.extra
      ∧ (∀ b ∈ db.bestias, b.id = c.id → o.extra = some (bestiaExtra b))
      ∧ (∀ r ∈ db.reinas, r.id = c.id → o.extra = some (reinaExtra r))
      ∧ (∀ t ∈ db.tokens, t.id = c.id → o.extra = some (tokenExtra t))
      ∧ ((∀ b ∈ db.bestias, b.id ≠ c.id) → (∀ r ∈ db.reinas, r.id ≠ c.id) →
          (∀ t ∈ db.tokens, t.id ≠ c.id) → o.extra = none) := by
  intro o ho
  rcases (searchCards_ok_inv hok).2 with ⟨s, hps, hs, hout⟩ | ⟨hid, hout⟩
  · rw [hout] at ho
    unfold idFisicoObjs at ho
    cases hfil : db.cartas.filter (fun c => c.id_fisico == some s) with
    | nil =>
      rw [hfil] at ho
      simp at ho
    | cons c rest =>
      rw [hfil] at ho
      simp only [List.mem_singleton] at ho
      subst ho
      have hcmem : c ∈ db.cartas := by
        have hcf : c ∈ db.cartas.filter (fun x => x.id_fisico == some s) := by
          rw [hfil]
          exact List.mem_cons_self _ _
        exact (List.mem_filter.mp hcf).1
      refine ⟨c, hcmem, rfl, ?_, ?_, ?_, ?_⟩
      · intro b hb hbid
        exact idFisicoExtra_bestia hwf hb hbid (hty.1 c hcmem b hb hbid)
      · intro r hr hrid
        exact idFisicoExtra_reina hwf hr hrid (hty.2.1 c hcmem r hr hrid)
      · intro t' ht' htid
        exact idFisicoExtra_token hwf ht' htid (hty.2.2 c hcmem t' ht' htid)
      · intro hbno hrno htno
        exact idFisicoExtra_none hbno hrno htno
  · rw [hout] at ho
    rcases List.mem_map.mp ho with ⟨c, hc, rfl⟩
    have hcmem : c ∈ db.cartas := mem_searchUnionRows (dedupById_subset hc)
    refine ⟨c, hcmem, rfl, ?_, ?_, ?_, ?_⟩
    · intro b hb hbid
      exact mergeRow_extra_bestia hwf hb hbid hc (hty.1 c hcmem b hb hbid)
    · intro r hr hrid
      exact mergeRow_extra_reina hwf hty hcmem hr hrid hc
        (hty.2.1 c hcmem r hr hrid)
    · intro t' ht' htid
      exact mergeRow_extra_token hwf hty hcmem ht' htid hc
        (hty.2.2 c hcmem t' ht' htid)
    · intro hbno hrno htno
      exact mergeRow_extra_none hbno hrno htno

/-- Witness: C8 (amended) at the `idFisico=f1` lookup and the Drake
record. -/
theorem C8_attribute_enrichment_witness :
    ∃ c, c ∈ dbW.cartas ∧ oDrake = mkObj c oDrake.extra
      ∧ (∀ b ∈ dbW.bestias, b.id = c.id → oDrake.extra = some (bestiaExtra b))
      ∧ (∀ r ∈ dbW.reinas, r.id = c.id → oDrake.extra = some (reinaExtra r))
      ∧ (∀ t ∈ dbW.tokens, t.id = c.id → oDrake.extra = some (tokenExtra t))
      ∧ ((∀ b ∈ dbW.bestias, b.id ≠ c.id) → (∀ r ∈ dbW.reinas, r.id ≠ c.id) →
          (∀ t ∈ dbW.tokens, t.id ≠ c.id) → oDrake.extra = none) :=
  C8_attribute_enrichment dbW pIdF [oDrake] (by decide) (by decide)
    (by decide) oDrake (by decide)

/-- A joined query only inspects the realm list through `reinoPred`. -/
theorem joinQuery_congr {α : Type} (cartas : List Carta) (sub : List α)
    (gid : α → Int) (greino : α → Option String) (glvl : α → Int)
    (tipoEq : Option String) {reinos reinos' : List String}
    (niveles : List Int) (nombre : Option String)
    (hrp : ∀ r, reinoPred reinos r = reinoPred reinos' r) :
    joinQuery cartas sub gid greino glvl tipoEq reinos niveles nombre
      = joinQuery cartas sub gid greino glvl tipoEq reinos' niveles nombre := by
  unfold joinQuery
  congr 1
  funext c
  congr 1
  apply List.filter_congr
  intro s _
  rw [hrp (greino s)]

/-- Per-type join under a realm list seen only through `reinoPred`. -/
theorem joinForTipo_congr {db : DB} {t : String} {reinos reinos' : List String}
    {niveles : List Int} {nombre : Option String}
    (hrp : ∀ r, reinoPred reinos r = reinoPred reinos' r) :
    joinForTipo db t reinos niveles nombre
      = joinForTipo db t reinos' niveles nombre := by
  unfold joinForTipo
  by_cases h1 : (t == "REINA") = true
  · rw [if_pos h1, if_pos h1]
    exact joinQuery_congr _ _ _ _ _ _ _ _ hrp
  · rw [if_neg h1, if_neg h1]
    by_cases h2 : (t == "TOKEN") = true
    · rw [if_pos h2, if_pos h2]
      exact joinQuery_congr _ _ _ _ _ _ _ _ hrp
    · rw [if_neg h2, if_neg h2]
      exact joinQuery_congr _ _ _ _ _ _ _ _ hrp

/-- C9 (amended): the response is invariant under rewriting the raw
parameters as long as the canonical type token sequence is preserved and
the canonical realm token set is preserved (duplicates, whitespace, empty
entries, letter case and space-vs-underscore rewrites all qualify; realm
tokens may also be reordered).  Reordering type tokens, by contrast, can
reorder the response (see the counterexample). -/
theorem C9_normalization_invariance (db : DB) (p q : Params)
    (h1 : normTipos p.tipo = normTipos q.tipo)
    (hra : ∀ r ∈ normReinos p.reino, r ∈ normReinos q.reino)
    (hrb : ∀ r ∈ normReinos q.reino, r ∈ normReinos p.reino)
    (hid : p.idFisico = q.idFisico) (hnom : p.nombre = q.nombre)
    (hniv : p.nivel = q.nivel) (hv : validationOk p) :
    searchCards db p = searchCards db q := by
  have hcont : ∀ x, (normReinos p.reino).contains x
      = (normReinos q.reino).contains x := by
    intro x
    by_cases hx : x ∈ normReinos p.reino
    · rw [(contains_true_iff _ _).mpr hx, (contains_true_iff _ _).mpr (hra x hx)]
    · have hxq : ¬ x ∈ normReinos q.reino := fun hq => hx (hrb x hq)
      have hc1 : (normReinos p.reino).contains x = false := by
        cases hc : (normReinos p.reino).contains x
        · rfl
        · exact absurd ((contains_true_iff _ _).mp hc) hx
      have hc2 : (normReinos q.reino).contains x = false := by
        cases hc : (normReinos q.reino).contains x
        · rfl
        · exact absurd ((contains_true_iff _ _).mp hc) hxq
      rw [hc1, hc2]
  have hemp : (normReinos p.reino).isEmpty = (normReinos q.reino).isEmpty := by
    cases hp : normReinos p.reino with
    | nil =>
      cases hq : normReinos q.reino with
      | nil => rfl
      | cons a l =>
        have hmem := hrb a (by rw [hq]; exact List.mem_cons_self _ _)
        rw [hp] at hmem
        simp at hmem
    | cons a l =>
      cases hq : normReinos q.reino with
      | nil =>
        have hmem := hra a (by rw [hp]; exact List.mem_cons_self _ _)
        rw [hq] at hmem
        simp at hmem
      | cons b m => rfl
  have hrp : ∀ r, reinoPred (normReinos p.reino) r
      = reinoPred (normReinos q.reino) r := by
    intro r
    cases r with
    | none =>
      unfold reinoPred
      rw [hemp]
    | some rr =>
      unfold reinoPred
      rw [hemp]
      dsimp only
      rw [hcont rr]
  have hAnd : tiposANDof p = tiposANDof q := by
    unfold tiposANDof
    rw [h1]
  have hRest : tiposRestantesOf p = tiposRestantesOf q := by
    unfold tiposRestantesOf
    rw [h1]
  have hv' : validationOk q := by
    constructor
    · intro r hr
      exact hv.1 r (hrb r hr)
    · intro t ht
      rw [← h1] at ht
      exact hv.2 t ht
  have hAeq : cartasAndRows db p = cartasAndRows db q := by
    unfold cartasAndRows
    rw [hAnd, hniv, hnom]
    congr 1
    funext t
    exact joinForTipo_congr hrp
  have hResteq : cartasRestRows db p = cartasRestRows db q := by
    unfold cartasRestRows
    rw [hRest, hnom]
  have hAlleq : cartasAllRows db p = cartasAllRows db q := by
    unfold cartasAllRows noFilterCond
    rw [h1, hemp, hnom, hniv]
  have hSubeq : subCartasRows db p = subCartasRows db q := by
    unfold subCartasRows subScanCond
    rw [hAnd, hemp, hniv, hnom]
    by_cases hc : ((tiposANDof q).isEmpty
        && (!(normReinos q.reino).isEmpty || !(normNiveles q.nivel).isEmpty
          || given q.nombre)) = true
    · rw [if_pos hc, if_pos hc,
        joinQuery_congr _ _ _ _ _ _ _ _ hrp,
        joinQuery_congr _ _ _ _ _ _ _ _ hrp,
        joinQuery_congr _ _ _ _ _ _ _ _ hrp]
    · rw [if_neg hc, if_neg hc]
  have hUnion : searchUnionRows db p = searchUnionRows db q := by
    unfold searchUnionRows
    rw [hAeq, hResteq, hAlleq, hSubeq]
  have hDedup : searchDedupRows db p = searchDedupRows db q := by
    unfold searchDedupRows
    rw [hUnion]
  have hBQC : branchQueryCount p = branchQueryCount q := by
    unfold branchQueryCount noFilterCond subScanCond
    rw [hAnd, hRest, h1, hemp, hniv, hnom]
  unfold searchCards searchCardsLog
  rw [validation_reinos_none hv, validation_tipos_none hv,
    validation_reinos_none hv', validation_tipos_none hv', hid, hDedup, hBQC]

/-- Witness: C9 (amended) for two noisy spellings of
`tipo=REINA&reino={PYRO,AQUA}`. -/
theorem C9_normalization_invariance_witness :
    searchCards dbW pNoisyA = searchCards dbW pNoisyB :=
  C9_normalization_invariance dbW pNoisyA pNoisyB (by decide) (by decide)
    (by decide) (by decide) (by decide) (by decide) (by decide)
